import Mathlib

/-!
Verification development for the OnWhisper bot database layer
(src/utils/db_manager.py): a document-oriented access layer over a remote
key-value store with an in-process cache, write serialization, a
transaction facade, and maintenance jobs.

Shallow embedding conventions:
* Python JSON-compatible values are the inductive `Val`; Python dicts are
  insertion-ordered association lists (`alGet`/`alSet` mirror lookup and
  `d[k] = v`, which updates in place or appends, as CPython dicts do).
* Stateful code is explicit state passing: `DBM α := DBState → Res α × DBState`,
  where `Res` distinguishes normal return from a raised Python exception.
  State mutated before an exception is raised survives, as in Python.
* The remote store maps keys to the decoded view of what was persisted:
  `_write_data` serializes non-string values with `json.dumps` and POSTs the
  string; a later cold `_read_data` runs `json.loads`, which round-trips the
  values this layer writes, so the store is modelled at that decoded level.
  The cache, in contrast, is set to exactly what the source assigns:
  the serialized string on writes, the decoded value on reads.
* ISO-8601 timestamp strings (`datetime.utcnow().isoformat()`) are modelled
  as integers ordered like the timestamps (ISO strings compare
  lexicographically in timestamp order); `datetime.fromisoformat` is the
  identity on this representation and raises on anything that is not one.
* `asyncio.Lock()` object identity is modelled by a fresh numeric id drawn
  from a counter in the state.
-/

namespace OnWhisper

/-- JSON-compatible Python values: None, bool, int, str, list, dict
(dicts as insertion-ordered association lists with string keys). -/
inductive Val : Type where
  | null : Val
  | bool : Bool → Val
  | num : Int → Val
  | str : String → Val
  | list : List Val → Val
  | obj : List (String × Val) → Val

mutual

/-- Python `==` on values (used by `in` on lists and by `list.count`). -/
def valBEq : Val → Val → Bool
  | .null, .null => true
  | .bool a, .bool b => a == b
  | .num a, .num b => a == b
  | .str a, .str b => a == b
  | .list a, .list b => valListBEq a b
  | .obj a, .obj b => valObjBEq a b
  | _, _ => false

/-- Python `==` on lists of values, elementwise. -/
def valListBEq : List Val → List Val → Bool
  | [], [] => true
  | a :: as, b :: bs => valBEq a b && valListBEq as bs
  | _, _ => false

/-- Python `==` on dicts, as ordered association lists. -/
def valObjBEq : List (String × Val) → List (String × Val) → Bool
  | [], [] => true
  | (k, a) :: as, (l, b) :: bs => k == l && valBEq a b && valObjBEq as bs
  | _, _ => false

end

/-- Python `x in xs` on a list (`==` against each element). -/
def listElem (x : Val) : List Val → Bool
  | [] => false
  | y :: ys => valBEq x y || listElem x ys

/-- Python `xs.count(x)` on a list. -/
def countVal (x : Val) : List Val → Nat
  | [] => 0
  | y :: ys => (if valBEq x y then 1 else 0) + countVal x ys

/-- Python exceptions that the embedded code can raise. -/
inductive PyErr : Type where
  | attributeError : PyErr
  | typeError : PyErr
  | keyError : PyErr
  | valueError : PyErr
deriving Repr, DecidableEq

/-- Result of running a piece of Python code: a value or a raised exception. -/
inductive Res (α : Type) : Type where
  | ok : α → Res α
  | err : PyErr → Res α
deriving Repr, DecidableEq

/-- Association-list lookup: Python `d.get(k)` / `k in d` on dicts. -/
def alGet (l : List (String × Val)) (k : String) : Option Val :=
  match l with
  | [] => none
  | (k', v) :: t => if k' = k then some v else alGet t k

/-- Association-list update: Python `d[k] = v` — updates the existing entry
in place (keeping its position) or appends a new one, as CPython dicts do. -/
def alSet (l : List (String × Val)) (k : String) (v : Val) : List (String × Val) :=
  match l with
  | [] => [(k, v)]
  | (k', v') :: t => if k' = k then (k, v) :: t else (k', v') :: alSet t k v

/-- Python truthiness of a value (`bool(v)`). -/
def pyTruthy : Val → Bool
  | .null => false
  | .bool b => b
  | .num i => if i = 0 then false else true
  | .str s => if s = "" then false else true
  | .list xs => !xs.isEmpty
  | .obj kvs => !kvs.isEmpty

/-- `json.dumps` escaping of one character inside a string literal
(control-character escapes are omitted; no value in this development
contains control characters). -/
def escapeChar (c : Char) : String :=
  if c = '"' then "\\\"" else if c = '\\' then "\\\\" else String.singleton c

/-- `json.dumps` escaping of a character list. -/
def escapeChars : List Char → String
  | [] => ""
  | c :: cs => escapeChar c ++ escapeChars cs

/-- `json.dumps` escaping of a string body. -/
def escapeStr (s : String) : String := escapeChars s.data

mutual

/-- `json.dumps` with its default separators (", " and ": "). -/
def dumps : Val → String
  | .null => "null"
  | .bool true => "true"
  | .bool false => "false"
  | .num i => toString i
  | .str s => "\"" ++ escapeStr s ++ "\""
  | .list xs => "[" ++ dumpsList xs ++ "]"
  | .obj kvs => "\x7b" ++ dumpsObj kvs ++ "\x7d"

/-- `json.dumps` of the elements of a list, comma-separated. -/
def dumpsList : List Val → String
  | [] => ""
  | [x] => dumps x
  | x :: y :: xs => dumps x ++ ", " ++ dumpsList (y :: xs)

/-- `json.dumps` of the entries of a dict, comma-separated. -/
def dumpsObj : List (String × Val) → String
  | [] => ""
  | [(k, v)] => "\"" ++ escapeStr k ++ "\": " ++ dumps v
  | (k, v) :: p :: xs => "\"" ++ escapeStr k ++ "\": " ++ dumps v ++ ", " ++ dumpsObj (p :: xs)

end

/-- The `if not isinstance(data, str): data = json.dumps(data)` step of
`_write_data`: the value as it is transmitted and as it is cached. -/
def serialVal (v : Val) : Val :=
  match v with
  | .str _ => v
  | _ => .str (dumps v)

/-- Process-wide state of a `DatabaseManager`:
`cache` is `self._cache`; `store` is the remote key-value service (decoded
view, see the module comment); `storeUp` says whether the backing store is
reachable (when it is not, requests raise inside the helper and are turned
into the neutral results the source returns); `now` is the current time
(`datetime.utcnow()`), constant during a call; `nextLock` is the source of
fresh `asyncio.Lock()` identities; `locks` is `self._locks`, the per-scope
lock registry (initialized and never used by the source); `writes` is the
chronological trace of successful writes to the backing store. -/
structure DBState : Type where
  cache : List (String × Val)
  store : List (String × Val)
  storeUp : Bool
  now : Int
  nextLock : Nat
  locks : List ((Int × String) × Nat)
  writes : List (String × Val)

/-- State-passing embedding of the async methods: explicit state, explicit
exception results.  State changes made before an exception survive it. -/
abbrev DBM (α : Type) : Type := DBState → Res α × DBState

def dbmPure {α : Type} (a : α) : DBM α := fun st => (.ok a, st)

def dbmBind {α β : Type} (m : DBM α) (f : α → DBM β) : DBM β := fun st =>
  match m st with
  | (.ok a, st') => f a st'
  | (.err e, st') => (.err e, st')

instance : Monad DBM where
  pure := dbmPure
  bind := dbmBind

@[simp] theorem bind_def {α β : Type} (m : DBM α) (f : α → DBM β) :
    (m >>= f) = dbmBind m f := rfl

@[simp] theorem pure_def {α : Type} (a : α) : (pure a : DBM α) = dbmPure a := rfl

/-- Read the current state (used to take `datetime.utcnow()`). -/
def getSt : DBM DBState := fun st => (.ok st, st)

/-- Raise a Python exception. -/
def throwErr {α : Type} (e : PyErr) : DBM α := fun st => (.err e, st)

/-- Python `try: m except Exception: h` — state mutated by `m` before the
exception survives into the handler. -/
def runCatch {α : Type} (m : DBM α) (h : PyErr → DBM α) : DBM α := fun st =>
  match m st with
  | (.ok a, st') => (.ok a, st')
  | (.err e, st') => h e st'

/-- Embeds `DatabaseManager._read_data`: serve from `self._cache` when
present; otherwise GET from the store — 404 means absent (`None`, nothing
cached), success caches and returns the decoded value, and a transport
failure (store unreachable) is caught and reported as `None`. -/
def readData (key : String) : DBM (Option Val) := fun st =>
  match alGet st.cache key with
  | some v => (.ok (some v), st)
  | none =>
    if st.storeUp then
      match alGet st.store key with
      | none => (.ok none, st)
      | some v => (.ok (some v), { st with cache := alSet st.cache key v })
    else
      (.ok none, st)

/-- Embeds `DatabaseManager._write_data`: serialize non-string values with
`json.dumps`, POST the result, and on success set `self._cache[key]` to the
serialized value (the string, not the original); the store keeps the decoded
view of what was persisted.  Transport failure is caught and returns
`False` with nothing cached. -/
def writeData (key : String) (v : Val) : DBM Bool := fun st =>
  if st.storeUp then
    (.ok true,
      { st with
        store := alSet st.store key v,
        cache := alSet st.cache key (serialVal v),
        writes := st.writes ++ [(key, v)] })
  else
    (.ok false, st)

/-- Python `str(v)` as used by the f-strings building keys (only `str` and
`int` arguments occur in the source; the container cases approximate
`repr` and are unused). -/
def pyStr : Val → String
  | .str s => s
  | .num i => toString i
  | .bool true => "True"
  | .bool false => "False"
  | .null => "None"
  | v => dumps v

/-- The key `f"guild:\x7bguild_id\x7d"`. -/
def guildKey (gid : Val) : String := "guild:" ++ pyStr gid

/-- The key for an integer guild id, as in `ensure_guild_exists` and
`sync_guilds`. -/
def guildKeyN (g : Int) : String := "guild:" ++ toString g

/-- Python `r or d` for the result of `_read_data` (`None` and falsy values
are replaced by the default). -/
def pyOrDefault (r : Option Val) (d : Val) : Val :=
  match r with
  | none => d
  | some v => if pyTruthy v then v else d

/-- Python `v or d` on a value. -/
def pyOrElse (v d : Val) : Val := if pyTruthy v then v else d

/-- Python `v.get(k, dflt)` — `AttributeError` when `v` is not a dict. -/
def pyDictGet (v : Val) (k : String) (dflt : Val) : DBM Val := fun st =>
  match v with
  | .obj kvs => (.ok ((alGet kvs k).getD dflt), st)
  | _ => (.err .attributeError, st)

/-- Python `v.get(k)` — `None` when absent, `AttributeError` when `v` is
not a dict. -/
def pyDictGetOpt (v : Val) (k : String) : DBM (Option Val) := fun st =>
  match v with
  | .obj kvs => (.ok (alGet kvs k), st)
  | _ => (.err .attributeError, st)

/-- Python `v[k] = x` for a string key — `TypeError` when `v` does not
support string-keyed item assignment. -/
def pySetIndex (v : Val) (k : String) (x : Val) : DBM Val := fun st =>
  match v with
  | .obj kvs => (.ok (.obj (alSet kvs k x)), st)
  | _ => (.err .typeError, st)

/-- Python `v[k]` for a string key — `KeyError` when the key is missing,
`TypeError` when `v` is not a dict. -/
def pyGetIndex (v : Val) (k : String) : DBM Val := fun st =>
  match v with
  | .obj kvs =>
    match alGet kvs k with
    | some x => (.ok x, st)
    | none => (.err .keyError, st)
  | _ => (.err .typeError, st)

/-- Python `v.append(x)` — `AttributeError` when `v` is not a list. -/
def pyAppend (v x : Val) : DBM Val := fun st =>
  match v with
  | .list xs => (.ok (.list (xs ++ [x])), st)
  | _ => (.err .attributeError, st)

/-- Python `iter(v)`: list elements, the characters of a string (as
one-character strings), or the keys of a dict; `TypeError` otherwise. -/
def pyIter (v : Val) : DBM (List Val) := fun st =>
  match v with
  | .list xs => (.ok xs, st)
  | .str s => (.ok (s.data.map (fun c => .str (String.singleton c))), st)
  | .obj kvs => (.ok (kvs.map (fun p => Val.str p.1)), st)
  | _ => (.err .typeError, st)

/-- Substring test, Python `needle in hay` on strings. -/
def subStr (needle hay : String) : Bool := decide (needle.data <:+: hay.data)

/-- Python `x in c`: element equality on lists, substring on strings, key
membership on dicts (all keys in this development are strings);
`TypeError` otherwise. -/
def pyIn (x c : Val) : DBM Bool := fun st =>
  match c with
  | .list xs => (.ok (listElem x xs), st)
  | .str s =>
    match x with
    | .str t => (.ok (subStr t s), st)
    | _ => (.err .typeError, st)
  | .obj kvs =>
    match x with
    | .str t => (.ok (alGet kvs t).isSome, st)
    | _ => (.ok false, st)
  | _ => (.err .typeError, st)

/-- `datetime.fromisoformat` on the integer model of ISO timestamp strings
(see the module comment): identity on a timestamp, an exception on
anything else. -/
def fromiso (v : Val) : DBM Int := fun st =>
  match v with
  | .num i => (.ok i, st)
  | _ => (.err .typeError, st)

/-- A Python list comprehension `[x for x in xs if p x]` whose filter can
raise. -/
def filterPy (p : Val → DBM Bool) : List Val → DBM (List Val)
  | [] => pure []
  | x :: xs => do
    let b ← p x
    let rest ← filterPy p xs
    pure (if b then x :: rest else rest)

/-- Embeds `DatabaseManager.get_guild_data`:
`await self._read_data(f"guild:\x7bguild_id\x7d") or \x7b\x7d`. -/
def get_guild_data (gid : Val) : DBM Val := do
  let r ← readData (guildKey gid)
  pure (pyOrDefault r (.obj []))

/-- Embeds `DatabaseManager.get_section`:
`(await self.get_guild_data(guild_id)).get(section, \x7b\x7d)`. -/
def get_section (gid : Val) (sect : String) : DBM Val := do
  let data ← get_guild_data gid
  pyDictGet data sect (.obj [])

/-- Embeds `DatabaseManager.update_section`: read the whole document, set
the section, write the whole document back. -/
def update_section (gid : Val) (sect : String) (data : Val) : DBM Bool := do
  let gd ← get_guild_data gid
  let gd' ← pySetIndex gd sect data
  writeData (guildKey gid) gd'

/-- Embeds `DatabaseManager.get_user_xp`:
`(await self.get_section(guild_id, 'xp_users')).get(user_id)`. -/
def get_user_xp (gid : Val) (userId : String) : DBM (Option Val) := do
  let data ← get_section gid "xp_users"
  pyDictGetOpt data userId

/-- Embeds `DatabaseManager.update_user_xp`: read the `xp_users` section
(defaulting to an empty dict), set the user's record, write the section
back via `update_section`. -/
def update_user_xp (gid : Val) (userId : String) (xpData : Val) : DBM Bool := do
  let d ← get_section gid "xp_users"
  let data := pyOrElse d (.obj [])
  let data' ← pySetIndex data userId xpData
  update_section gid "xp_users" data'

/-- Embeds `DatabaseManager.add_log`: append the entry (with a
`datetime.utcnow()` timestamp merged in) to the `logs` section, keep only
the last 1000 entries, persist via `update_section`. -/
def add_log (gid : Val) (logData : List (String × Val)) : DBM Bool := do
  let d ← get_section gid "logs"
  let data := pyOrElse d (.list [])
  let st ← getSt
  let data' ← pyAppend data (.obj (alSet logData "timestamp" (.num st.now)))
  let data'' :=
    match data' with
    | .list xs => if xs.length > 1000 then Val.list (xs.drop (xs.length - 1000)) else Val.list xs
    | v => v
  update_section gid "logs" data''

/-- The filter of `cleanup_old_data` on one `logs` entry:
`datetime.fromisoformat(log['timestamp']) > cutoff`. -/
def logFilter (cutoff : Int) (log : Val) : DBM Bool := do
  let t ← pyGetIndex log "timestamp"
  let ti ← fromiso t
  pure (decide (ti > cutoff))

/-- The filter of `cleanup_old_data` on one `mod_actions` entry:
`not action.get('expires') or datetime.fromisoformat(action['expires']) > datetime.utcnow()`. -/
def modActionFilter (now : Int) (action : Val) : DBM Bool := do
  let e ← pyDictGetOpt action "expires"
  match e with
  | none => pure true
  | some ev =>
    if pyTruthy ev then do
      let ei ← fromiso ev
      pure (decide (ei > now))
    else pure true

/-- The filter of `cleanup_old_data` on one `whispers` entry:
`not w.get('closed_at') or datetime.fromisoformat(w['closed_at']) > cutoff`. -/
def whisperFilter (cutoff : Int) (w : Val) : DBM Bool := do
  let c ← pyDictGetOpt w "closed_at"
  match c with
  | none => pure true
  | some cv =>
    if pyTruthy cv then do
      let ci ← fromiso cv
      pure (decide (ci > cutoff))
    else pure true

/-- One conditional section rewrite of `cleanup_old_data`:
`if name in data: data[name] = [x for x in data[name] if p x]`. -/
def cleanSection (name : String) (p : Val → DBM Bool) (data : Val) : DBM Val := do
  let h ← pyIn (.str name) data
  if h then do
    let xs ← pyGetIndex data name
    let elems ← pyIter xs
    let kept ← filterPy p elems
    pySetIndex data name (.list kept)
  else
    pure data

/-- The body of the per-guild loop of `cleanup_old_data`. -/
def cleanupGuild (cutoff now : Int) (gid : Val) : DBM Unit := do
  let data ← get_guild_data gid
  let data ← cleanSection "logs" (logFilter cutoff) data
  let data ← cleanSection "mod_actions" (modActionFilter now) data
  let data ← cleanSection "whispers" (whisperFilter cutoff) data
  let _ ← writeData (guildKey gid) data
  pure ()

/-- The per-guild loop of `cleanup_old_data`. -/
def cleanupLoop (cutoff now : Int) : List Val → DBM Unit
  | [] => pure ()
  | gid :: rest => do
    cleanupGuild cutoff now gid
    cleanupLoop cutoff now rest

/-- Embeds `DatabaseManager.cleanup_old_data`: for every guild id in the
`guilds` index, filter the `logs`, `mod_actions` and `whispers` sections
and persist the document; any exception aborts the whole job and returns
`False`. -/
def cleanup_old_data (days : Int) : DBM Bool :=
  runCatch
    (do
      let st0 ← getSt
      let cutoff := st0.now - days
      let g ← readData "guilds"
      let guilds := pyOrDefault g (.list [])
      let gl ← pyIter guilds
      cleanupLoop cutoff st0.now gl
      pure true)
    (fun _ => pure false)

/-- The document `sync_guilds` and `ensure_guild_exists` create for a new
guild (identical literals in both methods). -/
def defaultGuildDoc (gid : Int) (name : String) (now : Int) : Val :=
  .obj
    [("id", .str (toString gid)),
     ("name", .str name),
     ("joined_at", .num now),
     ("whisper_config", .obj [("enabled", .bool false)]),
     ("logs", .obj [("enabled", .bool false)]),
     ("xp_settings", .obj [("enabled", .bool true), ("rate", .num 15), ("cooldown", .num 60)]),
     ("roles", .obj [("color_roles", .list []), ("level_roles", .obj [])])]

/-- The per-guild loop of `sync_guilds`, carrying the `success` and
`failed` counters and the accumulating index list.  The `faults` oracle
says whether an exception (from the surrounding bot framework) is raised
while processing that guild; the source catches it, counts the failure,
and continues with the remaining guilds. -/
def syncLoop (faults : Int → Bool) :
    List (Int × String) → Nat → Nat → List Val → DBM (Nat × Nat × List Val)
  | [], succ, failed, acc => pure (succ, failed, acc)
  | (gid, name) :: rest, succ, failed, acc =>
    if faults gid then
      syncLoop faults rest succ (failed + 1) acc
    else do
      let gd ← get_guild_data (.num gid)
      if pyTruthy gd then pure () else do
        let st ← getSt
        let _ ← writeData (guildKeyN gid) (defaultGuildDoc gid name st.now)
        pure ()
      syncLoop faults rest (succ + 1) failed (acc ++ [.str (toString gid)])

/-- Embeds `DatabaseManager.sync_guilds`: for every current bot guild,
create a default document if none exists, collect the id, and finally
overwrite the `guilds` index with exactly the collected ids; returns the
`success`/`failed` counters (packaged as a dict in the source). -/
def sync_guilds (botGuilds : List (Int × String)) (faults : Int → Bool) : DBM (Nat × Nat) :=
  runCatch
    (do
      let (succ, failed, acc) ← syncLoop faults botGuilds 0 0 []
      let _ ← writeData "guilds" (.list acc)
      pure (succ, failed))
    (fun _ => pure (0, botGuilds.length))

/-- The document stage of `ensure_guild_exists`: read the document via
`get_guild_data` and create a default document when the read is falsy. -/
def ensureDocPart (gid : Int) (name : String) : DBM Unit := do
  let gd ← get_guild_data (.num gid)
  if pyTruthy gd then pure () else do
    let st ← getSt
    let _ ← writeData (guildKeyN gid) (defaultGuildDoc gid name st.now)
    pure ()

/-- Embeds `DatabaseManager.ensure_guild_exists`: read the index and the
document; create a default document when the document read is falsy; append
the id to the index (and persist it) when `str(guild_id)` is not `in` the
index value; any exception yields `False`. -/
def ensure_guild_exists (gid : Int) (name : String) : DBM Bool :=
  runCatch
    (do
      let g ← readData "guilds"
      let guilds := pyOrDefault g (.list [])
      ensureDocPart gid name
      let c ← pyIn (.str (toString gid)) guilds
      if c then pure true
      else do
        let guilds' ← pyAppend guilds (.str (toString gid))
        let _ ← writeData "guilds" guilds'
        pure true)
    (fun _ => pure false)

/-- Embeds `DatabaseTransaction`: scope `(guild_id, namespace)`, the
identity of the `asyncio.Lock()` the constructor creates, and the buffered
changes dict. -/
structure DatabaseTransaction : Type where
  guild_id : Int
  nspace : String
  lockId : Nat
  changes : List (String × Val)

/-- Embeds `DatabaseManager.transaction` composed with
`DatabaseTransaction.__init__`: a brand-new transaction object with a
brand-new `asyncio.Lock()` (fresh identity) and an empty change buffer;
the manager's `_locks` registry is not consulted or updated. -/
def transaction (gid : Int) (nspace : String) : DBM DatabaseTransaction := fun st =>
  (.ok ⟨gid, nspace, st.nextLock, []⟩, { st with nextLock := st.nextLock + 1 })

/-- A caller buffering a change inside the transaction scope:
`tx.changes[key] = value`. -/
def txSet (t : DatabaseTransaction) (k : String) (v : Val) : DatabaseTransaction :=
  { t with changes := alSet t.changes k v }

/-- The commit loop of `DatabaseTransaction.__aexit__`:
`for key, value in self.changes.items(): await self.db_manager._write_data(key, value)`. -/
def commitLoop : List (String × Val) → DBM Unit
  | [] => pure ()
  | (k, v) :: rest => do
    let _ ← writeData k v
    commitLoop rest

/-- Embeds `DatabaseTransaction.__aexit__`: when the body raised
(`excRaised`), no buffered change is written; on a clean exit every
buffered change is written in insertion order.  The per-instance lock is
released on both paths. -/
def txAexit (t : DatabaseTransaction) (excRaised : Bool) : DBM Unit :=
  if excRaised then pure () else commitLoop t.changes

/-! ### Basic lemmas about the embedding -/

@[simp] theorem dbmPure_apply {α : Type} (a : α) (st : DBState) :
    dbmPure a st = (.ok a, st) := rfl

@[simp] theorem dbmBind_apply {α β : Type} (m : DBM α) (f : α → DBM β) (st : DBState) :
    dbmBind m f st =
      match m st with
      | (.ok a, st') => f a st'
      | (.err e, st') => (.err e, st') := rfl

@[simp] theorem getSt_apply (st : DBState) : getSt st = (.ok st, st) := rfl

@[simp] theorem throwErr_apply {α : Type} (e : PyErr) (st : DBState) :
    throwErr (α := α) e st = (.err e, st) := rfl

@[simp] theorem runCatch_apply {α : Type} (m : DBM α) (h : PyErr → DBM α) (st : DBState) :
    runCatch m h st =
      match m st with
      | (.ok a, st') => (.ok a, st')
      | (.err e, st') => h e st' := rfl

@[simp] theorem alGet_alSet_self (l : List (String × Val)) (k : String) (v : Val) :
    alGet (alSet l k v) k = some v := by
  induction l with
  | nil => simp [alGet, alSet]
  | cons p t ih =>
    obtain ⟨k', v'⟩ := p
    by_cases h : k' = k <;> simp [alGet, alSet, h, ih]

theorem alGet_alSet_ne (l : List (String × Val)) {k k' : String} (v : Val)
    (h : k' ≠ k) : alGet (alSet l k v) k' = alGet l k' := by
  have h' : ¬k = k' := fun hk => h hk.symm
  induction l with
  | nil => simp [alGet, alSet, h']
  | cons p t ih =>
    obtain ⟨k₀, v₀⟩ := p
    by_cases hk : k₀ = k
    · subst hk
      simp [alGet, alSet, h']
    · simp [alGet, alSet, hk, ih]

@[simp] theorem pyOrDefault_obj (kvs : List (String × Val)) :
    pyOrDefault (some (.obj kvs)) (.obj []) = .obj kvs := by
  cases kvs <;> simp [pyOrDefault, pyTruthy]

@[simp] theorem pyOrDefault_list (xs : List Val) :
    pyOrDefault (some (.list xs)) (.list []) = .list xs := by
  cases xs <;> simp [pyOrDefault, pyTruthy]

@[simp] theorem pyOrDefault_none (d : Val) : pyOrDefault none d = d := rfl

@[simp] theorem pyOrElse_obj (kvs : List (String × Val)) :
    pyOrElse (.obj kvs) (.obj []) = .obj kvs := by
  cases kvs <;> simp [pyOrElse, pyTruthy]

@[simp] theorem pyOrElse_list (xs : List Val) :
    pyOrElse (.list xs) (.list []) = .list xs := by
  cases xs <;> simp [pyOrElse, pyTruthy]

@[simp] theorem pyTruthy_objnil : pyTruthy (.obj []) = false := rfl

@[simp] theorem pyTruthy_listnil : pyTruthy (.list []) = false := rfl

/-- `_read_data` on a cached key: served from the cache, no state change,
no store access. -/
theorem readData_cached {st : DBState} {k : String} {v : Val}
    (h : alGet st.cache k = some v) : readData k st = (.ok (some v), st) := by
  simp [readData, h]

/-- `_read_data` on an uncached key with the store reachable: the decoded
store value is returned and cached. -/
theorem readData_cold {st : DBState} {k : String} {v : Val}
    (hc : alGet st.cache k = none) (hup : st.storeUp = true)
    (hs : alGet st.store k = some v) :
    readData k st = (.ok (some v), { st with cache := alSet st.cache k v }) := by
  simp [readData, hc, hup, hs]

/-- `_read_data` on a key that is neither cached nor in the store: `None`,
whether or not the store is reachable. -/
theorem readData_absent {st : DBState} {k : String}
    (hc : alGet st.cache k = none) (hs : alGet st.store k = none) :
    readData k st = (.ok none, st) := by
  cases hup : st.storeUp <;> simp [readData, hc, hup, hs]

/-- `_write_data` with the store reachable: store updated with the decoded
value, cache updated with the serialized value, write trace extended. -/
theorem writeData_up {st : DBState} (k : String) (v : Val) (hup : st.storeUp = true) :
    writeData k v st =
      (.ok true,
        { st with
          store := alSet st.store k v,
          cache := alSet st.cache k (serialVal v),
          writes := st.writes ++ [(k, v)] }) := by
  simp [writeData, hup]

/-- Keys of the form `guild:...` are never the index key `guilds`. -/
theorem guildKey_str_ne_guilds (s : String) : "guild:" ++ s ≠ "guilds" := by
  intro h
  have hl := congrArg String.length h
  rw [String.length_append] at hl
  have hs : s.length = 0 := by
    have : (6 : Nat) + s.length = 6 := hl
    omega
  have hs' : s = "" := by
    cases s with
    | mk data =>
      cases data with
      | nil => rfl
      | cons c cs => simp [String.length, List.length] at hs
  rw [hs'] at h
  exact absurd h (by decide)

theorem guildKeyN_ne_guilds (g : Int) : guildKeyN g ≠ "guilds" :=
  guildKey_str_ne_guilds (toString g)

theorem guildKey_ne_guilds (gid : Val) : guildKey gid ≠ "guilds" :=
  guildKey_str_ne_guilds (pyStr gid)

/-- Distinct suffixes give distinct `guild:` keys. -/
theorem guildKey_str_inj {a b : String} (h : "guild:" ++ a = "guild:" ++ b) : a = b := by
  have hd := congrArg String.data h
  simp only [String.data_append] at hd
  have : a.data = b.data := List.append_cancel_left hd
  cases a; cases b
  exact congrArg String.mk this

@[simp] theorem guildKey_num (g : Int) : guildKey (.num g) = guildKeyN g := rfl

/-! ### Claims -/

/-- C1: the claim says a successful `_write_data(k, v)` followed by
`_read_data(k)` returns a value equal to `v`, served from the cache even
when the backing store is unreachable.  The code violates the equality:
`_write_data` reassigns `data = json.dumps(data)` for non-string values and
then caches that serialized string, so the read (which is indeed served
from the cache, with no backing-store access, even with the store down)
returns the JSON string of `v`, not `v`. -/
theorem C1_write_then_read_returns_serialized_string :
    (writeData "k" (.obj [("a", .num 1)]) ⟨[], [], true, 0, 0, [], []⟩).1 = .ok true ∧
    (readData "k"
        { (writeData "k" (.obj [("a", .num 1)]) ⟨[], [], true, 0, 0, [], []⟩).2 with
            storeUp := false }).1
      = .ok (some (.str "\x7b\"a\": 1\x7d")) ∧
    (readData "k"
        { (writeData "k" (.obj [("a", .num 1)]) ⟨[], [], true, 0, 0, [], []⟩).2 with
            storeUp := false }).2
      = { (writeData "k" (.obj [("a", .num 1)]) ⟨[], [], true, 0, 0, [], []⟩).2 with
            storeUp := false } ∧
    Val.str "\x7b\"a\": 1\x7d" ≠ Val.obj [("a", .num 1)] := by
  refine ⟨rfl, rfl, rfl, ?_⟩
  intro h
  exact Val.noConfusion h

/-- C3: the claim says two transactions on the same scope `(g, ns)` share a
single lazily-created per-scope lock.  The code gives every
`DatabaseTransaction` its own freshly constructed `asyncio.Lock()` and
never consults the `_locks` registry, so two transactions on the same
scope hold different locks (and the registry is unchanged by creating
them): their Active phases are not serialized against each other. -/
theorem C3_transaction_creates_fresh_lock (st : DBState) (g : Int) (ns : String) :
    (transaction g ns st).1 = .ok ⟨g, ns, st.nextLock, []⟩ ∧
    (transaction g ns ((transaction g ns st).2)).1 = .ok ⟨g, ns, st.nextLock + 1, []⟩ ∧
    st.nextLock ≠ st.nextLock + 1 ∧
    ((transaction g ns ((transaction g ns st).2)).2).locks = st.locks ∧
    ((transaction g ns ((transaction g ns st).2)).2).cache = st.cache ∧
    ((transaction g ns ((transaction g ns st).2)).2).store = st.store :=
  ⟨rfl, rfl, by omega, rfl, rfl, rfl⟩

/-- A guild document with an empty `logs` list, for the C5 scenario. -/
def stC5 : DBState :=
  { cache := [],
    store := [("guilds", .list [.str "1"]),
              ("guild:1", .obj [("id", .str "1"), ("logs", .list [])])],
    storeUp := true, now := 100, nextLock := 0, locks := [], writes := [] }

/-- C5: the claim says 1005 sequential `add_log` calls starting from an
empty `logs` section leave the last 1000 entries.  On the code, the first
call succeeds but poisons the cache with the serialized document string
(see C1), so the second sequential call crashes with `AttributeError`
(`'str' object has no attribute 'get'`) inside `get_section`; the scenario
never gets past two calls. -/
theorem C5_second_add_log_raises :
    (add_log (.num 1) [("action", .str "ban")] stC5).1 = .ok true ∧
    (add_log (.num 1) [("action", .str "kick")]
        ((add_log (.num 1) [("action", .str "ban")] stC5).2)).1
      = .err .attributeError :=
  ⟨rfl, rfl⟩

/-- Full run of `update_user_xp` on a consistent state: cold cache for the
document key, document in the store as a dict with `xp_users` a dict (or
absent, with `U = []`). -/
theorem update_user_xp_run (g : Int) (u : String) (xp : Val) (st : DBState)
    (kvs U : List (String × Val))
    (hup : st.storeUp = true)
    (hc : alGet st.cache (guildKeyN g) = none)
    (hs : alGet st.store (guildKeyN g) = some (.obj kvs))
    (hx' : (alGet kvs "xp_users").getD (.obj []) = .obj U) :
    update_user_xp (.num g) u xp st =
      (.ok true,
        { st with
          cache := alSet (alSet st.cache (guildKeyN g) (.obj kvs)) (guildKeyN g)
            (serialVal (.obj (alSet kvs "xp_users" (.obj (alSet U u xp))))),
          store := alSet st.store (guildKeyN g)
            (.obj (alSet kvs "xp_users" (.obj (alSet U u xp)))),
          writes := st.writes
            ++ [(guildKeyN g, .obj (alSet kvs "xp_users" (.obj (alSet U u xp))))] }) := by
  have hr := readData_cold hc hup hs
  have hr2 : readData (guildKeyN g) { st with cache := alSet st.cache (guildKeyN g) (.obj kvs) }
      = (.ok (some (.obj kvs)), { st with cache := alSet st.cache (guildKeyN g) (.obj kvs) }) :=
    readData_cached (by simp)
  simp only [update_user_xp, get_section, get_guild_data, update_section, bind_def, pure_def,
    dbmBind_apply, dbmPure_apply, guildKey_num]
  rw [hr]
  simp only [pyOrDefault_obj, pyDictGet, hx', pyOrElse_obj, pySetIndex]
  rw [hr2]
  simp [writeData, hup]

/-- C9: a successful `update_user_xp(guild_id, user_id, xp_data)` on a
consistent state (document readable as a dict whose `xp_users` section is
a dict or absent) rewrites only the `xp_users` entry of `user_id`: every
other section of the document and every other user's record are unchanged,
and no other store key is touched. -/
theorem C9_update_user_xp_frame (g : Int) (u : String) (xp : Val) (st : DBState)
    (kvs U : List (String × Val))
    (hup : st.storeUp = true)
    (hc : alGet st.cache (guildKeyN g) = none)
    (hs : alGet st.store (guildKeyN g) = some (.obj kvs))
    (hx : alGet kvs "xp_users" = some (.obj U) ∨ (alGet kvs "xp_users" = none ∧ U = [])) :
    (update_user_xp (.num g) u xp st).1 = .ok true ∧
    alGet (update_user_xp (.num g) u xp st).2.store (guildKeyN g)
      = some (.obj (alSet kvs "xp_users" (.obj (alSet U u xp)))) ∧
    (∀ sect, sect ≠ "xp_users" →
      alGet (alSet kvs "xp_users" (.obj (alSet U u xp))) sect = alGet kvs sect) ∧
    (∀ u', u' ≠ u → alGet (alSet U u xp) u' = alGet U u') ∧
    (∀ k, k ≠ guildKeyN g →
      alGet (update_user_xp (.num g) u xp st).2.store k = alGet st.store k) := by
  have hx' : (alGet kvs "xp_users").getD (.obj []) = .obj U := by
    rcases hx with h | ⟨h, hU⟩
    · simp [h]
    · simp [h, hU]
  have hrun := update_user_xp_run g u xp st kvs U hup hc hs hx'
  rw [hrun]
  refine ⟨rfl, by simp, ?_, ?_, ?_⟩
  · intro sect hsect
    exact alGet_alSet_ne kvs _ hsect
  · intro u' hu'
    exact alGet_alSet_ne U xp hu'
  · intro k hk
    exact alGet_alSet_ne st.store _ hk

/-- Concrete state for the C9 witness: one guild document with an
`xp_users` section holding user "a" and a `roles` section. -/
def stC9 : DBState :=
  { cache := [],
    store := [("guild:3", .obj [("id", .str "3"),
      ("xp_users", .obj [("a", .num 10)]),
      ("roles", .obj [])])],
    storeUp := true, now := 0, nextLock := 0, locks := [], writes := [] }

/-- Witness for C9 at a concrete input. -/
theorem C9_update_user_xp_frame_w :
    (update_user_xp (.num 3) "b" (.num 5) stC9).1 = .ok true ∧
    alGet (update_user_xp (.num 3) "b" (.num 5) stC9).2.store (guildKeyN 3)
      = some (.obj (alSet [("id", .str "3"), ("xp_users", .obj [("a", .num 10)]), ("roles", .obj [])]
          "xp_users" (.obj (alSet [("a", .num 10)] "b" (.num 5))))) ∧
    alGet (alSet [("a", .num 10)] "b" (.num 5)) "a" = alGet [("a", .num 10)] "a" := by
  have h := C9_update_user_xp_frame 3 "b" (.num 5) stC9
    [("id", .str "3"), ("xp_users", .obj [("a", .num 10)]), ("roles", .obj [])]
    [("a", .num 10)] rfl rfl rfl (Or.inl rfl)
  exact ⟨h.1, h.2.1, h.2.2.2.1 "a" (by decide)⟩

/-- C10: `get_user_xp` reports an absent record as `None` (an absent
`Option` result), while `get_section` and `get_guild_data` normalize an
absent document to an empty dict. -/
theorem C10_get_user_xp_absent_is_none :
    (∀ (g : Int) (u : String) (st : DBState),
      alGet st.cache (guildKeyN g) = none →
      alGet st.store (guildKeyN g) = none →
      (get_user_xp (.num g) u st).1 = .ok none ∧
      (get_section (.num g) "xp_users" st).1 = .ok (.obj []) ∧
      (get_guild_data (.num g) st).1 = .ok (.obj [])) ∧
    (∀ (g : Int) (u : String) (st : DBState) (kvs U : List (String × Val)),
      alGet st.cache (guildKeyN g) = some (.obj kvs) →
      alGet kvs "xp_users" = some (.obj U) →
      alGet U u = none →
      (get_user_xp (.num g) u st).1 = .ok none) := by
  constructor
  · intro g u st hc hs
    have hr := readData_absent hc hs
    refine ⟨?_, ?_, ?_⟩ <;>
      simp [get_user_xp, get_section, get_guild_data, hr, pyDictGet, pyDictGetOpt,
        pyOrDefault, alGet]
  · intro g u st kvs U hc hx hu
    have hr := readData_cached hc
    simp [get_user_xp, get_section, get_guild_data, hr, pyDictGet, pyDictGetOpt, hx, hu]

/-- Full run of the commit loop of `__aexit__` with the store reachable:
every buffered pair is written, in list (= insertion) order. -/
theorem commitLoop_run (changes : List (String × Val)) (st : DBState)
    (hup : st.storeUp = true) :
    commitLoop changes st =
      (.ok (),
        { st with
          store := changes.foldl (fun s p => alSet s p.1 p.2) st.store,
          cache := changes.foldl (fun c p => alSet c p.1 (serialVal p.2)) st.cache,
          writes := st.writes ++ changes }) := by
  induction changes generalizing st with
  | nil => simp [commitLoop]
  | cons p rest ih =>
    obtain ⟨k, v⟩ := p
    simp only [commitLoop, bind_def, dbmBind_apply]
    rw [writeData_up k v hup]
    dsimp only
    rw [ih { st with cache := alSet st.cache k (serialVal v), store := alSet st.store k v, writes := st.writes ++ [(k, v)] } hup]
    simp

/-- Folding writes whose keys all differ from `k` leaves the lookup of `k`
unchanged. -/
theorem alGet_foldl_alSet_notkey (F : Val → Val) (l : List (String × Val))
    (c0 : List (String × Val)) (k : String) (h : ∀ p ∈ l, p.1 ≠ k) :
    alGet (l.foldl (fun c p => alSet c p.1 (F p.2)) c0) k = alGet c0 k := by
  induction l generalizing c0 with
  | nil => rfl
  | cons p rest ih =>
    simp only [List.foldl_cons]
    rw [ih _ (fun q hq => h q (List.mem_cons_of_mem p hq))]
    exact alGet_alSet_ne c0 _ (fun hk => h p (List.mem_cons_self p rest) hk.symm)

/-- After folding writes with pairwise-distinct keys, each written key
looks up its own written value. -/
theorem alGet_foldl_alSet_mem (F : Val → Val) (l : List (String × Val)) :
    ∀ (c0 : List (String × Val)) (k : String) (v : Val),
      (k, v) ∈ l → (l.map Prod.fst).Nodup →
      alGet (l.foldl (fun c p => alSet c p.1 (F p.2)) c0) k = some (F v) := by
  induction l with
  | nil =>
    intro c0 k v hmem _
    cases hmem
  | cons p rest ih =>
    intro c0 k v hmem hnd
    simp only [List.map_cons, List.nodup_cons] at hnd
    rcases List.mem_cons.mp hmem with heq | hmem'
    · have hp : p = (k, v) := heq.symm
      subst hp
      have hnot : ∀ q ∈ rest, q.1 ≠ k := by
        intro q hq hkq
        apply hnd.1
        rw [← hkq]
        exact List.mem_map.mpr ⟨q, hq, rfl⟩
      simp only [List.foldl_cons]
      rw [alGet_foldl_alSet_notkey F rest _ k hnot]
      simp
    · simp only [List.foldl_cons]
      exact ih _ k v hmem' hnd.2

/-- C2 counterexample: the claim says every value a committed transaction
wrote is visible (equal) to subsequent reads; committing the buffered dict
value under key "k" and reading it back yields the serialized JSON string,
not the dict. -/
theorem C2_counterexample :
    (readData "k"
        (txAexit ⟨1, "ns", 0, [("k", .obj [("a", .num 1)])]⟩ false
          ⟨[], [], true, 0, 0, [], []⟩).2).1
      = .ok (some (.str "\x7b\"a\": 1\x7d")) ∧
    Val.str "\x7b\"a\": 1\x7d" ≠ Val.obj [("a", .num 1)] :=
  ⟨rfl, fun h => Val.noConfusion h⟩

/-- C2 (amended): a transaction whose body raises commits zero writes and
changes nothing; a clean exit with N buffered changes performs exactly
those N writes, one per buffered pair, in insertion order; and a
subsequent read of each written key returns the persisted serialization of
the buffered value (the value itself only when it is already a string),
served from the cache. -/
theorem C2_transaction_commit (t : DatabaseTransaction) (st : DBState)
    (hup : st.storeUp = true) (hnd : (t.changes.map Prod.fst).Nodup) :
    txAexit t true st = (.ok (), st) ∧
    (txAexit t false st).2.writes = st.writes ++ t.changes ∧
    (txAexit t false st).2.store = t.changes.foldl (fun s p => alSet s p.1 p.2) st.store ∧
    (∀ k v, (k, v) ∈ t.changes →
      readData k (txAexit t false st).2
        = (.ok (some (serialVal v)), (txAexit t false st).2)) := by
  have hrun := commitLoop_run t.changes st hup
  have haex : txAexit t false st = commitLoop t.changes st := rfl
  refine ⟨rfl, ?_, ?_, ?_⟩
  · rw [haex, hrun]
  · rw [haex, hrun]
  · intro k v hmem
    rw [haex, hrun]
    exact readData_cached (alGet_foldl_alSet_mem serialVal t.changes st.cache k v hmem hnd)

/-- Witness for C2 at a concrete transaction with two buffered changes. -/
theorem C2_transaction_commit_w :
    txAexit ⟨7, "xp", 0, [("a", .num 1), ("b", .str "s")]⟩ true ⟨[], [], true, 0, 0, [], []⟩
      = (.ok (), ⟨[], [], true, 0, 0, [], []⟩) ∧
    (txAexit ⟨7, "xp", 0, [("a", .num 1), ("b", .str "s")]⟩ false
        ⟨[], [], true, 0, 0, [], []⟩).2.writes
      = [("a", .num 1), ("b", .str "s")] ∧
    readData "a"
        (txAexit ⟨7, "xp", 0, [("a", .num 1), ("b", .str "s")]⟩ false
          ⟨[], [], true, 0, 0, [], []⟩).2
      = (.ok (some (.str "1")),
          (txAexit ⟨7, "xp", 0, [("a", .num 1), ("b", .str "s")]⟩ false
            ⟨[], [], true, 0, 0, [], []⟩).2) := by
  have h := C2_transaction_commit ⟨7, "xp", 0, [("a", .num 1), ("b", .str "s")]⟩
    ⟨[], [], true, 0, 0, [], []⟩ rfl (by simp)
  exact ⟨h.1, h.2.1, h.2.2.2 "a" (.num 1) (by simp)⟩

/-- A guild has a (truthy) document in the backing store: exactly the
condition under which `sync_guilds`/`ensure_guild_exists` skip creation
when the cache is cold for that key. -/
def hasDoc (st : DBState) (g : Int) : Bool :=
  match alGet st.store (guildKeyN g) with
  | some v => pyTruthy v
  | none => false

/-- The guilds of the current list that `sync_guilds` processes without a
fault. -/
def syncOk (faults : Int → Bool) (bg : List (Int × String)) : List (Int × String) :=
  bg.filter (fun p => !faults p.1)

/-- The guilds for which `sync_guilds` creates a new default document:
processed without fault and with no (truthy) document in the store. -/
def syncNew (st : DBState) (faults : Int → Bool) (bg : List (Int × String)) :
    List (Int × String) :=
  bg.filter (fun p => !faults p.1 && !hasDoc st p.1)

/-- The index entries `sync_guilds` collects, in order. -/
def syncIds (faults : Int → Bool) (bg : List (Int × String)) : List Val :=
  (syncOk faults bg).map (fun p => Val.str (toString p.1))

/-- The document writes `sync_guilds` performs, in order. -/
def syncWrites (st : DBState) (faults : Int → Bool) (bg : List (Int × String)) :
    List (String × Val) :=
  (syncNew st faults bg).map (fun p => (guildKeyN p.1, defaultGuildDoc p.1 p.2 st.now))

/-- Full characterization of the per-guild loop of `sync_guilds` from a
state whose cache is cold for the processed guild keys (pairwise
distinct): counters, write trace, documents and frame conditions. -/
theorem syncLoop_spec (faults : Int → Bool) (bg : List (Int × String)) :
    ∀ (st : DBState) (succ failed : Nat) (acc : List Val),
      st.storeUp = true →
      (∀ p ∈ bg, alGet st.cache (guildKeyN p.1) = none) →
      (bg.map (fun p => guildKeyN p.1)).Nodup →
      (syncLoop faults bg succ failed acc st).1
          = .ok (succ + (syncOk faults bg).length,
                 failed + (bg.filter (fun p => faults p.1)).length,
                 acc ++ syncIds faults bg) ∧
      (syncLoop faults bg succ failed acc st).2.writes
          = st.writes ++ syncWrites st faults bg ∧
      (syncLoop faults bg succ failed acc st).2.storeUp = true ∧
      (syncLoop faults bg succ failed acc st).2.now = st.now ∧
      (∀ p ∈ bg, faults p.1 = false →
        hasDoc (syncLoop faults bg succ failed acc st).2 p.1 = true) ∧
      (∀ k, (∀ p ∈ bg, k ≠ guildKeyN p.1) →
        alGet (syncLoop faults bg succ failed acc st).2.store k = alGet st.store k) ∧
      (∀ k, (∀ p ∈ bg, k ≠ guildKeyN p.1) →
        alGet (syncLoop faults bg succ failed acc st).2.cache k = alGet st.cache k) := by
  induction bg with
  | nil =>
    intro st succ failed acc hUp hCold hNd
    refine ⟨?_, ?_, hUp, rfl, ?_, ?_, ?_⟩ <;>
      simp [syncLoop, syncOk, syncIds, syncWrites, syncNew]
  | cons hd rest ih =>
    intro st succ failed acc hUp hCold hNd
    obtain ⟨gid, name⟩ := hd
    simp only [List.map_cons, List.nodup_cons] at hNd
    have hKeyNe : ∀ p ∈ rest, guildKeyN p.1 ≠ guildKeyN gid := fun p hp hkeq =>
      hNd.1 (List.mem_map.mpr ⟨p, hp, hkeq⟩)
    cases hf : faults gid with
    | true =>
      have hstep : syncLoop faults ((gid, name) :: rest) succ failed acc
          = syncLoop faults rest succ (failed + 1) acc := by
        simp [syncLoop, hf]
      have IH := ih st succ (failed + 1) acc hUp
        (fun p hp => hCold p (List.mem_cons_of_mem _ hp)) hNd.2
      obtain ⟨iA, iB, iC, iD, iE, iF, iG⟩ := IH
      rw [hstep]
      refine ⟨?_, ?_, iC, iD, ?_, ?_, ?_⟩
      · rw [iA]
        have hokL : syncOk faults ((gid, name) :: rest) = syncOk faults rest := by
          simp [syncOk, List.filter_cons, hf]
        have hfailL : (((gid, name) :: rest).filter (fun p => faults p.1)).length
            = (rest.filter (fun p => faults p.1)).length + 1 := by
          simp [List.filter_cons, hf]
        have hids : syncIds faults ((gid, name) :: rest) = syncIds faults rest := by
          simp [syncIds, syncOk, List.filter_cons, hf]
        rw [hokL, hfailL, hids]
        have harith : failed + 1 + (rest.filter (fun p => faults p.1)).length
            = failed + ((rest.filter (fun p => faults p.1)).length + 1) := by omega
        rw [harith]
      · rw [iB]
        have : syncWrites st faults ((gid, name) :: rest) = syncWrites st faults rest := by
          simp [syncWrites, syncNew, List.filter_cons, hf]
        rw [this]
      · intro p hp hpf
        rcases List.mem_cons.mp hp with heq | hp'
        · rw [heq] at hpf
          simp [hf] at hpf
        · exact iE p hp' hpf
      · intro k hk
        exact iF k (fun p hp => hk p (List.mem_cons_of_mem _ hp))
      · intro k hk
        exact iG k (fun p hp => hk p (List.mem_cons_of_mem _ hp))
    | false =>
      have hcont : ∀ (st2 : DBState),
          syncLoop faults ((gid, name) :: rest) succ failed acc st
            = syncLoop faults rest (succ + 1) failed (acc ++ [.str (toString gid)]) st2 →
          st2.storeUp = true →
          st2.now = st.now →
          st2.writes = st.writes ++ syncWrites st faults [(gid, name)] →
          hasDoc st2 gid = true →
          (∀ k, k ≠ guildKeyN gid → alGet st2.store k = alGet st.store k) →
          (∀ k, k ≠ guildKeyN gid → alGet st2.cache k = alGet st.cache k) →
          (syncLoop faults ((gid, name) :: rest) succ failed acc st).1
              = .ok (succ + (syncOk faults ((gid, name) :: rest)).length,
                     failed + (((gid, name) :: rest).filter (fun p => faults p.1)).length,
                     acc ++ syncIds faults ((gid, name) :: rest)) ∧
          (syncLoop faults ((gid, name) :: rest) succ failed acc st).2.writes
              = st.writes ++ syncWrites st faults ((gid, name) :: rest) ∧
          (syncLoop faults ((gid, name) :: rest) succ failed acc st).2.storeUp = true ∧
          (syncLoop faults ((gid, name) :: rest) succ failed acc st).2.now = st.now ∧
          (∀ p ∈ (gid, name) :: rest, faults p.1 = false →
            hasDoc (syncLoop faults ((gid, name) :: rest) succ failed acc st).2 p.1 = true) ∧
          (∀ k, (∀ p ∈ (gid, name) :: rest, k ≠ guildKeyN p.1) →
            alGet (syncLoop faults ((gid, name) :: rest) succ failed acc st).2.store k
              = alGet st.store k) ∧
          (∀ k, (∀ p ∈ (gid, name) :: rest, k ≠ guildKeyN p.1) →
            alGet (syncLoop faults ((gid, name) :: rest) succ failed acc st).2.cache k
              = alGet st.cache k) := by
        intro st2 hstep h2up h2now h2w h2doc h2sf h2cf
        have hColdRest : ∀ p ∈ rest, alGet st2.cache (guildKeyN p.1) = none := fun p hp =>
          (h2cf _ (hKeyNe p hp)).trans (hCold p (List.mem_cons_of_mem _ hp))
        have IH := ih st2 (succ + 1) failed (acc ++ [.str (toString gid)]) h2up hColdRest hNd.2
        obtain ⟨iA, iB, iC, iD, iE, iF, iG⟩ := IH
        have hsw : syncWrites st2 faults rest = syncWrites st faults rest := by
          have hfe : rest.filter (fun p => !faults p.1 && !hasDoc st2 p.1)
              = rest.filter (fun p => !faults p.1 && !hasDoc st p.1) :=
            List.filter_congr (fun p hp => by simp [hasDoc, h2sf _ (hKeyNe p hp)])
          simp [syncWrites, syncNew, hfe, h2now]
        rw [hstep]
        refine ⟨?_, ?_, iC, iD.trans h2now, ?_, ?_, ?_⟩
        · rw [iA]
          have hokL : (syncOk faults ((gid, name) :: rest)).length
              = (syncOk faults rest).length + 1 := by
            simp [syncOk, List.filter_cons, hf]
          have hfailL : (((gid, name) :: rest).filter (fun p => faults p.1)).length
              = (rest.filter (fun p => faults p.1)).length := by
            simp [List.filter_cons, hf]
          have hids : syncIds faults ((gid, name) :: rest)
              = .str (toString gid) :: syncIds faults rest := by
            simp [syncIds, syncOk, List.filter_cons, hf]
          rw [hokL, hfailL, hids]
          have harith : succ + 1 + (syncOk faults rest).length
              = succ + ((syncOk faults rest).length + 1) := by omega
          rw [harith]
          simp
        · rw [iB, h2w, hsw]
          have hswc : syncWrites st faults ((gid, name) :: rest)
              = syncWrites st faults [(gid, name)] ++ syncWrites st faults rest := by
            cases hc : (!faults gid && !hasDoc st gid) <;>
              simp [syncWrites, syncNew, List.filter_cons, hc]
          rw [hswc, List.append_assoc]
        · intro p hp hpf
          rcases List.mem_cons.mp hp with heq | hp'
          · have hfr := iF (guildKeyN gid) (fun q hq => (hKeyNe q hq).symm)
            rw [heq]
            simpa [hasDoc, hfr] using h2doc
          · exact iE p hp' hpf
        · intro k hk
          have h1 := iF k (fun p hp => hk p (List.mem_cons_of_mem _ hp))
          have h2 := h2sf k (hk (gid, name) (List.mem_cons_self _ _))
          exact h1.trans h2
        · intro k hk
          have h1 := iG k (fun p hp => hk p (List.mem_cons_of_mem _ hp))
          have h2 := h2cf k (hk (gid, name) (List.mem_cons_self _ _))
          exact h1.trans h2
      rcases hdoc : alGet st.store (guildKeyN gid) with _ | v
      · -- no document in the store: one is created from `st` directly
        have hread := readData_absent
          (show alGet st.cache (guildKeyN gid) = none from hCold (gid, name) (List.mem_cons_self _ _)) hdoc
        have hdocF : hasDoc st gid = false := by simp [hasDoc, hdoc]
        have hW : syncWrites st faults [(gid, name)]
            = [(guildKeyN gid, defaultGuildDoc gid name st.now)] := by
          simp [syncWrites, syncNew, List.filter_cons, hf, hdocF]
        have hstep : syncLoop faults ((gid, name) :: rest) succ failed acc st
            = syncLoop faults rest (succ + 1) failed (acc ++ [.str (toString gid)])
                { st with store := alSet st.store (guildKeyN gid) (defaultGuildDoc gid name st.now), cache := alSet st.cache (guildKeyN gid) (serialVal (defaultGuildDoc gid name st.now)), writes := st.writes ++ [(guildKeyN gid, defaultGuildDoc gid name st.now)] } := by
          simp only [syncLoop, hf, get_guild_data, bind_def, pure_def, guildKey_num,
            dbmBind_apply, dbmPure_apply, getSt_apply, hread, pyOrDefault_none, pyTruthy,
            List.isEmpty_nil, Bool.not_true, Bool.false_eq_true, if_false, reduceIte]
          rw [@writeData_up st (guildKeyN gid) (defaultGuildDoc gid name st.now) hUp]
        refine hcont _ hstep hUp rfl (by simp [hW]) ?_ ?_ ?_
        · simp [hasDoc, defaultGuildDoc, pyTruthy]
        · intro k hk
          exact alGet_alSet_ne st.store _ hk
        · intro k hk
          exact alGet_alSet_ne st.cache _ hk
      · have hread := readData_cold
          (show alGet st.cache (guildKeyN gid) = none from hCold (gid, name) (List.mem_cons_self _ _)) hUp hdoc
        cases ht : pyTruthy v with
        | true =>
          -- truthy document: only the read is performed (it populates the cache)
          have hdocT : hasDoc st gid = true := by simp [hasDoc, hdoc, ht]
          have hW : syncWrites st faults [(gid, name)] = [] := by
            simp [syncWrites, syncNew, List.filter_cons, hf, hdocT]
          have hstep : syncLoop faults ((gid, name) :: rest) succ failed acc st
              = syncLoop faults rest (succ + 1) failed (acc ++ [.str (toString gid)])
                  { st with cache := alSet st.cache (guildKeyN gid) v } := by
            simp only [syncLoop, hf, get_guild_data, bind_def, pure_def, guildKey_num,
              dbmBind_apply, dbmPure_apply, getSt_apply, hread, pyOrDefault, ht,
              Bool.false_eq_true, if_false, if_true, reduceIte]
          refine hcont _ hstep hUp rfl (by simp [hW]) ?_ ?_ ?_
          · simpa [hasDoc] using hdocT
          · intro k hk
            rfl
          · intro k hk
            exact alGet_alSet_ne st.cache _ hk
        | false =>
          -- falsy document: it is overwritten by a default document
          have hdocF : hasDoc st gid = false := by simp [hasDoc, hdoc, ht]
          have hW : syncWrites st faults [(gid, name)]
              = [(guildKeyN gid, defaultGuildDoc gid name st.now)] := by
            simp [syncWrites, syncNew, List.filter_cons, hf, hdocF]
          have hstep : syncLoop faults ((gid, name) :: rest) succ failed acc st
              = syncLoop faults rest (succ + 1) failed (acc ++ [.str (toString gid)])
                  { st with store := alSet st.store (guildKeyN gid) (defaultGuildDoc gid name st.now), cache := alSet (alSet st.cache (guildKeyN gid) v) (guildKeyN gid) (serialVal (defaultGuildDoc gid name st.now)), writes := st.writes ++ [(guildKeyN gid, defaultGuildDoc gid name st.now)] } := by
            simp only [syncLoop, hf, get_guild_data, bind_def, pure_def, guildKey_num,
              dbmBind_apply, dbmPure_apply, getSt_apply, hread, pyOrDefault, ht,
              pyTruthy_objnil, Bool.false_eq_true, if_false, reduceIte]
            rw [@writeData_up { st with cache := alSet st.cache (guildKeyN gid) v } (guildKeyN gid) (defaultGuildDoc gid name st.now) hUp]
          refine hcont _ hstep hUp rfl (by simp [hW]) ?_ ?_ ?_
          · simp [hasDoc, defaultGuildDoc, pyTruthy]
          · intro k hk
            exact alGet_alSet_ne st.store _ hk
          · intro k hk
            rw [alGet_alSet_ne _ _ hk]
            exact alGet_alSet_ne st.cache _ hk

/-- Full run of `sync_guilds` from a state whose cache is cold for the
processed guild keys (pairwise distinct): returns the counters and ends in
the loop's final state with the `guilds` index overwritten by exactly the
collected ids. -/
theorem sync_guilds_run (botGuilds : List (Int × String)) (faults : Int → Bool) (st : DBState)
    (hUp : st.storeUp = true)
    (hCold : ∀ p ∈ botGuilds, alGet st.cache (guildKeyN p.1) = none)
    (hNd : (botGuilds.map (fun p => guildKeyN p.1)).Nodup) :
    sync_guilds botGuilds faults st
      = (.ok ((syncOk faults botGuilds).length,
              (botGuilds.filter (fun p => faults p.1)).length),
         { (syncLoop faults botGuilds 0 0 [] st).2 with
             store := alSet (syncLoop faults botGuilds 0 0 [] st).2.store "guilds"
               (.list (syncIds faults botGuilds)),
             cache := alSet (syncLoop faults botGuilds 0 0 [] st).2.cache "guilds"
               (serialVal (.list (syncIds faults botGuilds))),
             writes := (syncLoop faults botGuilds 0 0 [] st).2.writes
               ++ [("guilds", .list (syncIds faults botGuilds))] }) := by
  obtain ⟨iA, iB, iC, iD, iE, iF, iG⟩ := syncLoop_spec faults botGuilds st 0 0 [] hUp hCold hNd
  simp only [Nat.zero_add, List.nil_append] at iA
  have hpair : syncLoop faults botGuilds 0 0 [] st
      = (.ok ((syncOk faults botGuilds).length,
              (botGuilds.filter (fun p => faults p.1)).length,
              syncIds faults botGuilds),
         (syncLoop faults botGuilds 0 0 [] st).2) :=
    Prod.ext_iff.mpr ⟨iA, rfl⟩
  simp only [sync_guilds, runCatch_apply, bind_def, dbmBind_apply, pure_def, dbmPure_apply]
  rw [hpair]
  dsimp only
  rw [@writeData_up ((syncLoop faults botGuilds 0 0 [] st).2) "guilds"
    (.list (syncIds faults botGuilds)) iC]

/-- The two filtered sublists of a list have complementary lengths. -/
theorem length_filter_not_add (p : α → Bool) (l : List α) :
    (l.filter (fun a => !p a)).length + (l.filter p).length = l.length := by
  induction l with
  | nil => simp
  | cons a t ih =>
    cases h : p a <;> simp [List.filter_cons, h] <;> omega

/-- C8: from a consistent state (cold cache for the current guild keys,
pairwise distinct), `sync_guilds` reports `success` = number of guilds
processed without a per-guild error and `failed` = number with one
(processing continues past failures: every non-faulted guild still gets
its id into the index and ends with a document); it performs one document
write per non-faulted guild without a (truthy) document, i.e. exactly
N − M document creations when no error occurs. -/
theorem C8_sync_guilds_counts (botGuilds : List (Int × String)) (faults : Int → Bool)
    (st : DBState)
    (hUp : st.storeUp = true)
    (hCold : ∀ p ∈ botGuilds, alGet st.cache (guildKeyN p.1) = none)
    (hNd : (botGuilds.map (fun p => guildKeyN p.1)).Nodup) :
    (sync_guilds botGuilds faults st).1
        = .ok ((syncOk faults botGuilds).length,
               (botGuilds.filter (fun p => faults p.1)).length) ∧
    ((∀ p ∈ botGuilds, faults p.1 = false) →
      (syncOk faults botGuilds).length = botGuilds.length ∧
      (botGuilds.filter (fun p => faults p.1)).length = 0) ∧
    (sync_guilds botGuilds faults st).2.writes
        = st.writes ++ syncWrites st faults botGuilds
            ++ [("guilds", .list (syncIds faults botGuilds))] ∧
    ((∀ p ∈ botGuilds, faults p.1 = false) →
      (syncWrites st faults botGuilds).length
        = botGuilds.length - (botGuilds.filter (fun p => hasDoc st p.1)).length) ∧
    (∀ p ∈ botGuilds, faults p.1 = false →
      Val.str (toString p.1) ∈ syncIds faults botGuilds ∧
      hasDoc (sync_guilds botGuilds faults st).2 p.1 = true) := by
  have hrun := sync_guilds_run botGuilds faults st hUp hCold hNd
  obtain ⟨iA, iB, iC, iD, iE, iF, iG⟩ := syncLoop_spec faults botGuilds st 0 0 [] hUp hCold hNd
  refine ⟨?_, ?_, ?_, ?_, ?_⟩
  · rw [hrun]
  · intro hNoF
    constructor
    · have : botGuilds.filter (fun p => !faults p.1) = botGuilds :=
        List.filter_eq_self.mpr (fun p hp => by simp [hNoF p hp])
      simp [syncOk, this]
    · have : botGuilds.filter (fun p => faults p.1) = [] :=
        List.filter_eq_nil_iff.mpr (fun p hp => by simp [hNoF p hp])
      simp [this]
  · rw [hrun, iB]
  · intro hNoF
    have hcg : botGuilds.filter (fun p => !faults p.1 && !hasDoc st p.1)
        = botGuilds.filter (fun p => !hasDoc st p.1) :=
      List.filter_congr (fun p hp => by simp [hNoF p hp])
    have hlen := length_filter_not_add (fun p => hasDoc st p.1) botGuilds
    simp only [syncWrites, syncNew, List.length_map, hcg]
    omega
  · intro p hp hpf
    constructor
    · exact List.mem_map.mpr ⟨p, List.mem_filter.mpr ⟨hp, by simp [hpf]⟩, rfl⟩
    · rw [hrun]
      have hne : guildKeyN p.1 ≠ "guilds" := guildKeyN_ne_guilds p.1
      have hframe := alGet_alSet_ne (syncLoop faults botGuilds 0 0 [] st).2.store
        (Val.list (syncIds faults botGuilds)) hne
      have := iE p hp hpf
      simpa [hasDoc, hframe] using this

/-- Witness for C8: two current guilds, one with an existing document, one
without, no faults — one creation, success 2, failed 0 — plus a run where
the first guild faults and the second is still processed. -/
theorem C8_sync_guilds_counts_w :
    (sync_guilds [(1, "A"), (2, "B")] (fun _ => false)
        ⟨[], [("guilds", .list []), ("guild:1", .obj [("id", .str "1")])], true, 5, 0, [], []⟩).1
      = .ok (2, 0) ∧
    (syncWrites ⟨[], [("guilds", .list []), ("guild:1", .obj [("id", .str "1")])], true, 5, 0, [], []⟩
        (fun _ => false) [(1, "A"), (2, "B")]).length = 2 - 1 ∧
    (sync_guilds [(1, "A"), (2, "B")] (fun g => g = 1)
        ⟨[], [("guilds", .list []), ("guild:1", .obj [("id", .str "1")])], true, 5, 0, [], []⟩).1
      = .ok (1, 1) ∧
    Val.str "2" ∈ syncIds (fun g => g = 1) [(1, "A"), (2, "B")] := by
  have h1 := C8_sync_guilds_counts [(1, "A"), (2, "B")] (fun _ => false)
    ⟨[], [("guilds", .list []), ("guild:1", .obj [("id", .str "1")])], true, 5, 0, [], []⟩
    rfl (by intro p hp; fin_cases hp <;> rfl) (by decide)
  have h2 := C8_sync_guilds_counts [(1, "A"), (2, "B")] (fun g => g = 1)
    ⟨[], [("guilds", .list []), ("guild:1", .obj [("id", .str "1")])], true, 5, 0, [], []⟩
    rfl (by intro p hp; fin_cases hp <;> rfl) (by decide)
  refine ⟨?_, ?_, ?_, ?_⟩
  · have := h1.1
    rw [this]
    have hc := h1.2.1 (by intro p hp; fin_cases hp <;> rfl)
    rw [hc.1, hc.2]
    rfl
  · have := h1.2.2.2.1 (by intro p hp; fin_cases hp <;> rfl)
    rw [this]
    rfl
  · have := h2.1
    rw [this]
    rfl
  · exact (h2.2.2.2.2 (2, "B") (by simp) (by decide)).1

/-- C4 counterexample: a completed `sync_guilds` call does not restore the
index invariant for a guild whose document predates the call but which is
no longer in the current guild list: the document stays in the store while
the rewritten `guilds` index is empty. -/
theorem C4_counterexample :
    (sync_guilds [] (fun _ => false)
        ⟨[], [("guilds", .list []), ("guild:1", .obj [("id", .str "1")])], true, 0, 0, [], []⟩).1
      = .ok (0, 0) ∧
    alGet (sync_guilds [] (fun _ => false)
        ⟨[], [("guilds", .list []), ("guild:1", .obj [("id", .str "1")])], true, 0, 0, [], []⟩).2.store
        "guild:1"
      = some (.obj [("id", .str "1")]) ∧
    pyTruthy (.obj [("id", .str "1")]) = true ∧
    alGet (sync_guilds [] (fun _ => false)
        ⟨[], [("guilds", .list []), ("guild:1", .obj [("id", .str "1")])], true, 0, 0, [], []⟩).2.store
        "guilds"
      = some (.list []) ∧
    listElem (.str "1") [] = false :=
  ⟨rfl, rfl, rfl, rfl, rfl⟩

/-- The document stage of `ensure_guild_exists` creates a default document
when the key is cold and the store has none. -/
theorem ensureDocPart_create (gid : Int) (name : String) (st : DBState)
    (hUp : st.storeUp = true)
    (hcd : alGet st.cache (guildKeyN gid) = none)
    (hsd : alGet st.store (guildKeyN gid) = none) :
    ensureDocPart gid name st
      = (.ok (), { st with store := alSet st.store (guildKeyN gid) (defaultGuildDoc gid name st.now), cache := alSet st.cache (guildKeyN gid) (serialVal (defaultGuildDoc gid name st.now)), writes := st.writes ++ [(guildKeyN gid, defaultGuildDoc gid name st.now)] }) := by
  have hread := readData_absent hcd hsd
  simp only [ensureDocPart, get_guild_data, bind_def, pure_def, guildKey_num,
    dbmBind_apply, dbmPure_apply, getSt_apply, hread, pyOrDefault_none, pyTruthy,
    List.isEmpty_nil, Bool.not_true, Bool.false_eq_true, if_false, reduceIte]
  rw [@writeData_up st (guildKeyN gid) (defaultGuildDoc gid name st.now) hUp]

/-- The document stage only populates the cache when the store already
holds a truthy document. -/
theorem ensureDocPart_skip_cold (gid : Int) (name : String) (st : DBState) (v : Val)
    (hUp : st.storeUp = true)
    (hcd : alGet st.cache (guildKeyN gid) = none)
    (hsd : alGet st.store (guildKeyN gid) = some v)
    (ht : pyTruthy v = true) :
    ensureDocPart gid name st
      = (.ok (), { st with cache := alSet st.cache (guildKeyN gid) v }) := by
  have hread := readData_cold hcd hUp hsd
  simp only [ensureDocPart, get_guild_data, bind_def, pure_def, guildKey_num,
    dbmBind_apply, dbmPure_apply, getSt_apply, hread, pyOrDefault, ht, if_true, reduceIte]

/-- The document stage is a strict no-op when the cache already holds a
truthy value for the document key. -/
theorem ensureDocPart_skip_cached (gid : Int) (name : String) (st : DBState) (v : Val)
    (hcd : alGet st.cache (guildKeyN gid) = some v)
    (ht : pyTruthy v = true) :
    ensureDocPart gid name st = (.ok (), st) := by
  have hread := readData_cached hcd
  simp only [ensureDocPart, get_guild_data, bind_def, pure_def, guildKey_num,
    dbmBind_apply, dbmPure_apply, getSt_apply, hread, pyOrDefault, ht, if_true, reduceIte]

/-- `json.dumps` escapes nothing in a character free of `"` and `\`. -/
theorem escapeChar_of_safe {c : Char} (h1 : c ≠ '"') (h2 : c ≠ '\\') :
    escapeChar c = String.singleton c := by
  simp [escapeChar, h1, h2]

/-- `json.dumps` escaping is the identity on safe character lists. -/
theorem escapeChars_data_of_safe (l : List Char)
    (h : ∀ c ∈ l, c ≠ '"' ∧ c ≠ '\\') : (escapeChars l).data = l := by
  induction l with
  | nil => rfl
  | cons c cs ih =>
    have hc := h c (List.mem_cons_self _ _)
    rw [escapeChars, escapeChar_of_safe hc.1 hc.2, String.data_append]
    rw [ih (fun d hd => h d (List.mem_cons_of_mem _ hd))]
    rfl

/-- The serialization of a safe string literal is the string in quotes. -/
theorem dumps_str_data_of_safe (t : String)
    (h : ∀ c ∈ t.data, c ≠ '"' ∧ c ≠ '\\') :
    (dumps (.str t)).data = '"' :: (t.data ++ ['"']) := by
  show ("\"" ++ escapeStr t ++ "\"").data = _
  rw [String.data_append, String.data_append, escapeStr, escapeChars_data_of_safe t.data h]
  rfl

/-- The serialization of the last element is inside the serialization of
the element list. -/
theorem infix_dumpsList_last (x : Val) (L : List Val) :
    (dumps x).data <:+: (dumpsList (L ++ [x])).data := by
  induction L with
  | nil =>
    show (dumps x).data <:+: (dumpsList [x]).data
    exact List.infix_refl _
  | cons y ys ih =>
    have hcons : dumpsList ((y :: ys) ++ [x]) = dumps y ++ ", " ++ dumpsList (ys ++ [x]) := by
      show dumpsList (y :: (ys ++ [x])) = _
      rcases hys : ys ++ [x] with _ | ⟨z, zs⟩
      · exact absurd hys (by simp)
      · rfl
    rw [hcons, String.data_append]
    exact ih.trans ((List.suffix_append _ _).isInfix)

/-- Python's substring test finds `t` inside the serialization of any list
ending in the string `t` (for `t` free of characters that `json.dumps`
escapes). -/
theorem subStr_dumps_of_safe (t : String) (L : List Val)
    (h : ∀ c ∈ t.data, c ≠ '"' ∧ c ≠ '\\') :
    subStr t (dumps (.list (L ++ [.str t]))) = true := by
  have h1 : t.data <:+: (dumps (.str t)).data := by
    rw [dumps_str_data_of_safe t h]
    exact ⟨['"'], ['"'], by simp⟩
  have h2 := infix_dumpsList_last (.str t) L
  have h3 : (dumpsList (L ++ [.str t])).data <:+: (dumps (.list (L ++ [.str t]))).data := by
    show _ <:+: ("[" ++ dumpsList (L ++ [.str t]) ++ "]").data
    rw [String.data_append, String.data_append]
    exact ⟨"[".data, "]".data, rfl⟩
  simp only [subStr, decide_eq_true_eq]
  exact (h1.trans h2).trans h3

/-- A serialized list is never the empty string. -/
theorem dumps_list_ne_empty (M : List Val) : dumps (.list M) ≠ "" := by
  intro h
  have hd := congrArg String.data h
  rw [show dumps (.list M) = "[" ++ dumpsList M ++ "]" from rfl,
    String.data_append, String.data_append] at hd
  simp at hd

/-- A serialized dict is never the empty string. -/
theorem dumps_obj_ne_empty (kvs : List (String × Val)) : dumps (.obj kvs) ≠ "" := by
  intro h
  have hd := congrArg String.data h
  rw [show dumps (.obj kvs) = "\x7b" ++ dumpsObj kvs ++ "\x7d" from rfl,
    String.data_append, String.data_append] at hd
  simp at hd

/-- An element not Python-`in` a list has count zero. -/
theorem countVal_eq_zero_of_not_elem (x : Val) (L : List Val)
    (h : listElem x L = false) : countVal x L = 0 := by
  induction L with
  | nil => rfl
  | cons y ys ih =>
    simp only [listElem, Bool.or_eq_false_iff] at h
    simp [countVal, h.1, ih h.2]

/-- Appending a string element makes it Python-`in` the list. -/
theorem listElem_str_append_self (t : String) (L : List Val) :
    listElem (.str t) (L ++ [.str t]) = true := by
  induction L with
  | nil => simp [listElem, valBEq]
  | cons y ys ih => simp [listElem, ih]

/-- Appending a string element to a list not containing it gives count
exactly one. -/
theorem countVal_str_append_self (t : String) (L : List Val)
    (h : listElem (.str t) L = false) :
    countVal (.str t) (L ++ [.str t]) = 1 := by
  induction L with
  | nil => simp [countVal, valBEq]
  | cons y ys ih =>
    simp only [listElem, Bool.or_eq_false_iff] at h
    simp [countVal, h.1, ih h.2]

/-- Full run of `ensure_guild_exists` from a clean state when the document
is absent and the id is not in the index list: the document is created and
the id appended to the persisted index. -/
theorem ensure_run_create_append (gid : Int) (name : String) (L : List Val) (st : DBState)
    (hUp : st.storeUp = true)
    (hcg : alGet st.cache "guilds" = none)
    (hsg : alGet st.store "guilds" = some (.list L))
    (hcd : alGet st.cache (guildKeyN gid) = none)
    (hsd : alGet st.store (guildKeyN gid) = none)
    (hnotin : listElem (.str (toString gid)) L = false) :
    ensure_guild_exists gid name st
      = (.ok true, { st with store := alSet (alSet st.store (guildKeyN gid) (defaultGuildDoc gid name st.now)) "guilds" (.list (L ++ [.str (toString gid)])), cache := alSet (alSet (alSet st.cache "guilds" (.list L)) (guildKeyN gid) (serialVal (defaultGuildDoc gid name st.now))) "guilds" (serialVal (.list (L ++ [.str (toString gid)]))), writes := st.writes ++ [(guildKeyN gid, defaultGuildDoc gid name st.now)] ++ [("guilds", .list (L ++ [.str (toString gid)]))] }) := by
  have hreadg := readData_cold hcg hUp hsg
  have hdp := ensureDocPart_create gid name
    { st with cache := alSet st.cache "guilds" (.list L) } hUp
    (by rw [alGet_alSet_ne _ _ (guildKeyN_ne_guilds gid)]; exact hcd) hsd
  simp only [ensure_guild_exists, runCatch_apply, bind_def, pure_def, dbmBind_apply,
    dbmPure_apply, hreadg, pyOrDefault_list]
  rw [hdp]
  simp only [pyIn, hnotin, Bool.false_eq_true, if_false, reduceIte, pyAppend,
    writeData, hUp, if_true, dbmBind_apply, dbmPure_apply]

/-- Full run of `ensure_guild_exists` when the document is absent but the
id is already Python-`in` the index list: the document is created and the
index is left alone. -/
theorem ensure_run_create_noappend (gid : Int) (name : String) (L : List Val) (st : DBState)
    (hUp : st.storeUp = true)
    (hcg : alGet st.cache "guilds" = none)
    (hsg : alGet st.store "guilds" = some (.list L))
    (hcd : alGet st.cache (guildKeyN gid) = none)
    (hsd : alGet st.store (guildKeyN gid) = none)
    (hin : listElem (.str (toString gid)) L = true) :
    ensure_guild_exists gid name st
      = (.ok true, { st with store := alSet st.store (guildKeyN gid) (defaultGuildDoc gid name st.now), cache := alSet (alSet st.cache "guilds" (.list L)) (guildKeyN gid) (serialVal (defaultGuildDoc gid name st.now)), writes := st.writes ++ [(guildKeyN gid, defaultGuildDoc gid name st.now)] }) := by
  have hreadg := readData_cold hcg hUp hsg
  have hdp := ensureDocPart_create gid name
    { st with cache := alSet st.cache "guilds" (.list L) } hUp
    (by rw [alGet_alSet_ne _ _ (guildKeyN_ne_guilds gid)]; exact hcd) hsd
  simp only [ensure_guild_exists, runCatch_apply, bind_def, pure_def, dbmBind_apply,
    dbmPure_apply, hreadg, pyOrDefault_list]
  rw [hdp]
  simp only [pyIn, hin, if_true, reduceIte, dbmBind_apply, dbmPure_apply]

/-- Full run of `ensure_guild_exists` when a truthy document exists but the
id is missing from the index list (a partial-failure state): the id is
appended to the persisted index and the document is not touched. -/
theorem ensure_run_skip_append (gid : Int) (name : String) (L : List Val) (st : DBState)
    (v : Val)
    (hUp : st.storeUp = true)
    (hcg : alGet st.cache "guilds" = none)
    (hsg : alGet st.store "guilds" = some (.list L))
    (hcd : alGet st.cache (guildKeyN gid) = none)
    (hsd : alGet st.store (guildKeyN gid) = some v)
    (ht : pyTruthy v = true)
    (hnotin : listElem (.str (toString gid)) L = false) :
    ensure_guild_exists gid name st
      = (.ok true, { st with store := alSet st.store "guilds" (.list (L ++ [.str (toString gid)])), cache := alSet (alSet (alSet st.cache "guilds" (.list L)) (guildKeyN gid) v) "guilds" (serialVal (.list (L ++ [.str (toString gid)]))), writes := st.writes ++ [("guilds", .list (L ++ [.str (toString gid)]))] }) := by
  have hreadg := readData_cold hcg hUp hsg
  have hdp := ensureDocPart_skip_cold gid name
    { st with cache := alSet st.cache "guilds" (.list L) } v hUp
    (by rw [alGet_alSet_ne _ _ (guildKeyN_ne_guilds gid)]; exact hcd) hsd ht
  simp only [ensure_guild_exists, runCatch_apply, bind_def, pure_def, dbmBind_apply,
    dbmPure_apply, hreadg, pyOrDefault_list]
  rw [hdp]
  simp only [pyIn, hnotin, Bool.false_eq_true, if_false, reduceIte, pyAppend,
    writeData, hUp, if_true, dbmBind_apply, dbmPure_apply]

/-- Full run of `ensure_guild_exists` when a truthy document exists and the
id is already in the index list: nothing is written. -/
theorem ensure_run_skip_noappend (gid : Int) (name : String) (L : List Val) (st : DBState)
    (v : Val)
    (hUp : st.storeUp = true)
    (hcg : alGet st.cache "guilds" = none)
    (hsg : alGet st.store "guilds" = some (.list L))
    (hcd : alGet st.cache (guildKeyN gid) = none)
    (hsd : alGet st.store (guildKeyN gid) = some v)
    (ht : pyTruthy v = true)
    (hin : listElem (.str (toString gid)) L = true) :
    ensure_guild_exists gid name st
      = (.ok true, { st with cache := alSet (alSet st.cache "guilds" (.list L)) (guildKeyN gid) v }) := by
  have hreadg := readData_cold hcg hUp hsg
  have hdp := ensureDocPart_skip_cold gid name
    { st with cache := alSet st.cache "guilds" (.list L) } v hUp
    (by rw [alGet_alSet_ne _ _ (guildKeyN_ne_guilds gid)]; exact hcd) hsd ht
  simp only [ensure_guild_exists, runCatch_apply, bind_def, pure_def, dbmBind_apply,
    dbmPure_apply, hreadg, pyOrDefault_list]
  rw [hdp]
  simp only [pyIn, hin, if_true, reduceIte, dbmBind_apply, dbmPure_apply]

/-- After a process-local write poisoned the cached index with its
serialized string (see C1), a further `ensure_guild_exists` is a strict
no-op returning `True`: the truthy cached strings short-circuit both the
document creation and (via Python's substring `in`) the index append. -/
theorem ensure_cached_noop (gid : Int) (name : String) (st : DBState) (S : String) (v : Val)
    (hgc : alGet st.cache "guilds" = some (.str S)) (hS : S ≠ "")
    (hsub : subStr (toString gid) S = true)
    (hdc : alGet st.cache (guildKeyN gid) = some v) (ht : pyTruthy v = true) :
    ensure_guild_exists gid name st = (.ok true, st) := by
  have hreadg := readData_cached hgc
  have hdp := ensureDocPart_skip_cached gid name st v hdc ht
  simp only [ensure_guild_exists, runCatch_apply, bind_def, pure_def, dbmBind_apply,
    dbmPure_apply, hreadg]
  have hord : pyOrDefault (some (.str S)) (.list []) = .str S := by
    simp [pyOrDefault, pyTruthy, hS]
  rw [hord, hdp]
  simp only [pyIn, hsub, if_true, reduceIte, dbmBind_apply, dbmPure_apply]

/-- C7: `ensure_guild_exists` called twice with the same guild id is
idempotent.  From a clean state the first call creates the document and
appends the id to the index (exactly one occurrence); the second call is a
strict no-op returning `True` — it does not overwrite the document and
does not touch the index; and from any later state whose cached document is
truthy (e.g. one customized in between) and whose cached index contains the
id string, a further call changes nothing at all. -/
theorem C7_ensure_guild_exists_idempotent (gid : Int) (name : String) (L : List Val)
    (st : DBState)
    (hUp : st.storeUp = true)
    (hcg : alGet st.cache "guilds" = none)
    (hsg : alGet st.store "guilds" = some (.list L))
    (hcd : alGet st.cache (guildKeyN gid) = none)
    (hsd : alGet st.store (guildKeyN gid) = none)
    (hnotin : listElem (.str (toString gid)) L = false)
    (hesc : ∀ c ∈ (toString gid).data, c ≠ '"' ∧ c ≠ '\\') :
    (ensure_guild_exists gid name st).1 = .ok true ∧
    alGet (ensure_guild_exists gid name st).2.store "guilds"
      = some (.list (L ++ [.str (toString gid)])) ∧
    countVal (.str (toString gid)) (L ++ [.str (toString gid)]) = 1 ∧
    alGet (ensure_guild_exists gid name st).2.store (guildKeyN gid)
      = some (defaultGuildDoc gid name st.now) ∧
    ensure_guild_exists gid name ((ensure_guild_exists gid name st).2)
      = (.ok true, (ensure_guild_exists gid name st).2) ∧
    (∀ (st' : DBState) (S : String) (v : Val),
      alGet st'.cache "guilds" = some (.str S) → S ≠ "" →
      subStr (toString gid) S = true →
      alGet st'.cache (guildKeyN gid) = some v → pyTruthy v = true →
      ensure_guild_exists gid name st' = (.ok true, st')) := by
  have hrun := ensure_run_create_append gid name L st hUp hcg hsg hcd hsd hnotin
  refine ⟨by rw [hrun], ?_, countVal_str_append_self _ L hnotin, ?_, ?_,
    fun st' S v h1 h2 h3 h4 h5 => ensure_cached_noop gid name st' S v h1 h2 h3 h4 h5⟩
  · rw [hrun]
    exact alGet_alSet_self _ _ _
  · rw [hrun]
    dsimp only
    rw [alGet_alSet_ne _ _ (guildKeyN_ne_guilds gid)]
    exact alGet_alSet_self _ _ _
  · rw [hrun]
    dsimp only
    apply ensure_cached_noop gid name _ (dumps (.list (L ++ [.str (toString gid)])))
      (.str (dumps (defaultGuildDoc gid name st.now)))
    · exact alGet_alSet_self _ _ _
    · exact dumps_list_ne_empty _
    · exact subStr_dumps_of_safe _ L hesc
    · rw [alGet_alSet_ne _ _ (guildKeyN_ne_guilds gid)]
      exact alGet_alSet_self _ _ _
    · simp [defaultGuildDoc, pyTruthy, dumps_obj_ne_empty]

/-- Clean concrete state for the C7 witness. -/
def stC7 : DBState :=
  { cache := [], store := [("guilds", .list [])],
    storeUp := true, now := 7, nextLock := 0, locks := [], writes := [] }

/-- Witness for C7 at guild id 5 from an empty index. -/
theorem C7_ensure_guild_exists_idempotent_w :
    (ensure_guild_exists 5 "G" stC7).1 = .ok true ∧
    countVal (.str (toString (5 : Int))) ([] ++ [.str (toString (5 : Int))]) = 1 ∧
    ensure_guild_exists 5 "G" ((ensure_guild_exists 5 "G" stC7).2)
      = (.ok true, (ensure_guild_exists 5 "G" stC7).2) := by
  have h := C7_ensure_guild_exists_idempotent 5 "G" [] stC7 rfl rfl rfl rfl rfl rfl
    (by decide)
  exact ⟨h.1, h.2.2.1, h.2.2.2.2.1⟩

/-- C4 (amended): after a completed `sync_guilds` call, every guild id of
the supplied current list appears in the rebuilt GuildIndex and has a
document — but the invariant is not restored for documents of guilds
outside the supplied list (see the counterexample, where such a document
survives while the index loses its id); after a successful
`ensure_guild_exists` call from a consistent partial state (index readable
as a list, document absent or truthy), that guild id is in the persisted
index and its document exists. -/
theorem C4_amended_index_coverage :
    (∀ (botGuilds : List (Int × String)) (st : DBState),
      st.storeUp = true →
      (∀ p ∈ botGuilds, alGet st.cache (guildKeyN p.1) = none) →
      (botGuilds.map (fun p => guildKeyN p.1)).Nodup →
      ∀ p ∈ botGuilds,
        alGet (sync_guilds botGuilds (fun _ => false) st).2.store "guilds"
          = some (.list (syncIds (fun _ => false) botGuilds)) ∧
        Val.str (toString p.1) ∈ syncIds (fun _ => false) botGuilds ∧
        hasDoc (sync_guilds botGuilds (fun _ => false) st).2 p.1 = true) ∧
    (∀ (gid : Int) (name : String) (L : List Val) (st : DBState),
      st.storeUp = true →
      alGet st.cache "guilds" = none →
      alGet st.store "guilds" = some (.list L) →
      alGet st.cache (guildKeyN gid) = none →
      (alGet st.store (guildKeyN gid) = none ∨
        (∃ v, alGet st.store (guildKeyN gid) = some v ∧ pyTruthy v = true)) →
      (ensure_guild_exists gid name st).1 = .ok true ∧
      (∃ L', alGet (ensure_guild_exists gid name st).2.store "guilds" = some (.list L') ∧
        listElem (.str (toString gid)) L' = true) ∧
      hasDoc (ensure_guild_exists gid name st).2 gid = true) := by
  constructor
  · intro botGuilds st hUp hCold hNd p hp
    have hrun := sync_guilds_run botGuilds (fun _ => false) st hUp hCold hNd
    obtain ⟨iA, iB, iC, iD, iE, iF, iG⟩ :=
      syncLoop_spec (fun _ => false) botGuilds st 0 0 [] hUp hCold hNd
    refine ⟨?_, ?_, ?_⟩
    · rw [hrun]
      dsimp only
      exact alGet_alSet_self _ _ _
    · exact List.mem_map.mpr ⟨p, List.mem_filter.mpr ⟨hp, by simp⟩, rfl⟩
    · rw [hrun]
      dsimp only
      have hfr := alGet_alSet_ne (syncLoop (fun _ => false) botGuilds 0 0 [] st).2.store
        (Val.list (syncIds (fun _ => false) botGuilds)) (guildKeyN_ne_guilds p.1)
      have hDoc := iE p hp rfl
      simpa [hasDoc, hfr] using hDoc
  · intro gid name L st hUp hcg hsg hcd hdoc
    rcases hdoc with hsd | ⟨v, hsd, ht⟩
    · cases hin : listElem (.str (toString gid)) L with
      | false =>
        have hrun := ensure_run_create_append gid name L st hUp hcg hsg hcd hsd hin
        refine ⟨by rw [hrun],
          ⟨L ++ [.str (toString gid)], ?_, listElem_str_append_self _ L⟩, ?_⟩
        · rw [hrun]
          exact alGet_alSet_self _ _ _
        · rw [hrun]
          simp only [hasDoc]
          rw [alGet_alSet_ne _ _ (guildKeyN_ne_guilds gid), alGet_alSet_self]
          simp [defaultGuildDoc, pyTruthy]
      | true =>
        have hrun := ensure_run_create_noappend gid name L st hUp hcg hsg hcd hsd hin
        refine ⟨by rw [hrun], ⟨L, ?_, hin⟩, ?_⟩
        · rw [hrun]
          dsimp only
          rw [alGet_alSet_ne _ _ (Ne.symm (guildKeyN_ne_guilds gid))]
          exact hsg
        · rw [hrun]
          simp only [hasDoc]
          rw [alGet_alSet_self]
          simp [defaultGuildDoc, pyTruthy]
    · cases hin : listElem (.str (toString gid)) L with
      | false =>
        have hrun := ensure_run_skip_append gid name L st v hUp hcg hsg hcd hsd ht hin
        refine ⟨by rw [hrun],
          ⟨L ++ [.str (toString gid)], ?_, listElem_str_append_self _ L⟩, ?_⟩
        · rw [hrun]
          exact alGet_alSet_self _ _ _
        · rw [hrun]
          simp only [hasDoc]
          rw [alGet_alSet_ne _ _ (guildKeyN_ne_guilds gid), hsd]
          exact ht
      | true =>
        have hrun := ensure_run_skip_noappend gid name L st v hUp hcg hsg hcd hsd ht hin
        refine ⟨by rw [hrun], ⟨L, ?_, hin⟩, ?_⟩
        · rw [hrun]
          exact hsg
        · rw [hrun]
          simp only [hasDoc]
          rw [hsd]
          exact ht

/-- Witness for C4 (amended): a sync over one current guild and an
`ensure_guild_exists` from a partial state with an existing document
missing from the index. -/
theorem C4_amended_index_coverage_w :
    (alGet (sync_guilds [(1, "A")] (fun _ => false)
        ⟨[], [("guilds", .list [])], true, 3, 0, [], []⟩).2.store "guilds"
      = some (.list (syncIds (fun _ => false) [(1, "A")])) ∧
     Val.str (toString ((1, "A") : Int × String).1) ∈ syncIds (fun _ => false) [(1, "A")] ∧
     hasDoc (sync_guilds [(1, "A")] (fun _ => false)
        ⟨[], [("guilds", .list [])], true, 3, 0, [], []⟩).2 ((1, "A") : Int × String).1 = true) ∧
    ((ensure_guild_exists 2 "B"
        ⟨[], [("guilds", .list []), ("guild:2", .obj [("id", .str "2")])], true, 3, 0, [], []⟩).1
      = .ok true ∧
     hasDoc (ensure_guild_exists 2 "B"
        ⟨[], [("guilds", .list []), ("guild:2", .obj [("id", .str "2")])], true, 3, 0, [], []⟩).2 2
      = true) := by
  have h1 := C4_amended_index_coverage.1 [(1, "A")]
    ⟨[], [("guilds", .list [])], true, 3, 0, [], []⟩ rfl
    (by intro p hp; fin_cases hp <;> rfl) (by simp) (1, "A") (by simp)
  have h2 := C4_amended_index_coverage.2 2 "B" []
    ⟨[], [("guilds", .list []), ("guild:2", .obj [("id", .str "2")])], true, 3, 0, [], []⟩
    rfl rfl rfl rfl (Or.inr ⟨.obj [("id", .str "2")], rfl, rfl⟩)
  exact ⟨⟨h1.1, h1.2.1, h1.2.2⟩, ⟨h2.1, h2.2.2⟩⟩

/-- A `logs` entry the cleanup keeps: its timestamp is strictly newer than
the cutoff. -/
def logKept (cutoff : Int) (e : Val) : Bool :=
  match e with
  | .obj kvs =>
    match alGet kvs "timestamp" with
    | some (.num t) => decide (t > cutoff)
    | _ => false
  | _ => false

/-- A `mod_actions` entry the cleanup keeps: no (truthy) `expires`
timestamp, or one that has not passed. -/
def actionKept (now : Int) (a : Val) : Bool :=
  match a with
  | .obj kvs =>
    match alGet kvs "expires" with
    | none => true
    | some e =>
      if pyTruthy e then
        match e with
        | .num t => decide (t > now)
        | _ => false
      else true
  | _ => false

/-- A `whispers` entry the cleanup keeps: no (truthy) `closed_at`
timestamp, or one newer than the cutoff. -/
def whisperKept (cutoff : Int) (w : Val) : Bool :=
  match w with
  | .obj kvs =>
    match alGet kvs "closed_at" with
    | none => true
    | some c =>
      if pyTruthy c then
        match c with
        | .num t => decide (t > cutoff)
        | _ => false
      else true
  | _ => false

/-- Well-formed `logs` entry: a dict with an integer-modelled timestamp. -/
def wfLogEntry (e : Val) : Bool :=
  match e with
  | .obj kvs =>
    match alGet kvs "timestamp" with
    | some (.num _) => true
    | _ => false
  | _ => false

/-- Well-formed optional timestamp field: absent, falsy, or a timestamp. -/
def wfOptTime (kvs : List (String × Val)) (key : String) : Bool :=
  match alGet kvs key with
  | none => true
  | some e => !pyTruthy e || (match e with | .num _ => true | _ => false)

/-- Well-formed `mod_actions` entry. -/
def wfAction (a : Val) : Bool :=
  match a with
  | .obj kvs => wfOptTime kvs "expires"
  | _ => false

/-- Well-formed `whispers` entry. -/
def wfWhisper (w : Val) : Bool :=
  match w with
  | .obj kvs => wfOptTime kvs "closed_at"
  | _ => false

/-- A guild document the cleanup can process without raising: each of the
three maintained sections is absent or a list of well-formed entries. -/
def wfDoc (kvs : List (String × Val)) : Bool :=
  (match alGet kvs "logs" with
   | none => true
   | some (.list xs) => xs.all wfLogEntry
   | some _ => false) &&
  (match alGet kvs "mod_actions" with
   | none => true
   | some (.list xs) => xs.all wfAction
   | some _ => false) &&
  (match alGet kvs "whispers" with
   | none => true
   | some (.list xs) => xs.all wfWhisper
   | some _ => false)

/-- Pure counterpart of one conditional section rewrite of the cleanup. -/
def cleanSectionPure (name : String) (K : Val → Bool) (kvs : List (String × Val)) :
    List (String × Val) :=
  match alGet kvs name with
  | some (.list xs) => alSet kvs name (.list (xs.filter K))
  | _ => kvs

/-- Pure counterpart of the whole per-guild document rewrite of
`cleanup_old_data`, in the order the source applies the three filters. -/
def cleanedDoc (cutoff now : Int) (kvs : List (String × Val)) : List (String × Val) :=
  cleanSectionPure "whispers" (whisperKept cutoff)
    (cleanSectionPure "mod_actions" (actionKept now)
      (cleanSectionPure "logs" (logKept cutoff) kvs))

/-- Lookup of another key is unchanged by a pure section rewrite. -/
theorem alGet_cleanSectionPure_ne (name : String) (K : Val → Bool)
    (kvs : List (String × Val)) {k : String} (h : k ≠ name) :
    alGet (cleanSectionPure name K kvs) k = alGet kvs k := by
  unfold cleanSectionPure
  rcases halg : alGet kvs name with _ | v
  · rfl
  · cases v <;> first | rfl | exact alGet_alSet_ne kvs _ h

/-- The logs comprehension of the cleanup evaluates, on well-formed
entries, to the pure filter by `logKept`. -/
theorem filterPy_logFilter (cutoff : Int) (xs : List Val) (st : DBState)
    (h : xs.all wfLogEntry = true) :
    filterPy (logFilter cutoff) xs st = (.ok (xs.filter (logKept cutoff)), st) := by
  induction xs with
  | nil => rfl
  | cons x rest ih =>
    simp only [List.all_cons, Bool.and_eq_true] at h
    have hx := h.1
    have hrest := ih h.2
    cases x with
    | obj kvs =>
      rcases halg : alGet kvs "timestamp" with _ | t
      · rw [wfLogEntry, halg] at hx
        exact absurd hx (by simp)
      · cases t with
        | num ti =>
          simp only [filterPy, logFilter, bind_def, pure_def, dbmBind_apply, dbmPure_apply,
            pyGetIndex, fromiso, halg, hrest, List.filter_cons, logKept]
        | null => rw [wfLogEntry, halg] at hx; exact absurd hx (by simp)
        | bool b => rw [wfLogEntry, halg] at hx; exact absurd hx (by simp)
        | str s => rw [wfLogEntry, halg] at hx; exact absurd hx (by simp)
        | list l => rw [wfLogEntry, halg] at hx; exact absurd hx (by simp)
        | obj o => rw [wfLogEntry, halg] at hx; exact absurd hx (by simp)
    | null => exact absurd hx (by simp [wfLogEntry])
    | bool b => exact absurd hx (by simp [wfLogEntry])
    | num n => exact absurd hx (by simp [wfLogEntry])
    | str s => exact absurd hx (by simp [wfLogEntry])
    | list l => exact absurd hx (by simp [wfLogEntry])

/-- The `mod_actions` comprehension of the cleanup evaluates, on
well-formed entries, to the pure filter by `actionKept`. -/
theorem filterPy_modActionFilter (now : Int) (xs : List Val) (st : DBState)
    (h : xs.all wfAction = true) :
    filterPy (modActionFilter now) xs st = (.ok (xs.filter (actionKept now)), st) := by
  induction xs with
  | nil => rfl
  | cons x rest ih =>
    simp only [List.all_cons, Bool.and_eq_true] at h
    have hx := h.1
    have hrest := ih h.2
    cases x with
    | obj kvs =>
      rcases halg : alGet kvs "expires" with _ | e
      · simp only [filterPy, modActionFilter, bind_def, pure_def, dbmBind_apply,
          dbmPure_apply, pyDictGetOpt, halg, hrest, List.filter_cons, actionKept, if_true]
      · rw [wfAction, wfOptTime, halg] at hx
        cases hte : pyTruthy e with
        | false =>
          simp only [filterPy, modActionFilter, bind_def, pure_def, dbmBind_apply,
            dbmPure_apply, pyDictGetOpt, halg, hrest, List.filter_cons, actionKept, hte,
            Bool.false_eq_true, if_false, if_true, reduceIte]
        | true =>
          cases e with
          | num t =>
            simp only [filterPy, modActionFilter, bind_def, pure_def, dbmBind_apply,
              dbmPure_apply, pyDictGetOpt, fromiso, halg, hrest, List.filter_cons,
              actionKept, hte, if_true, reduceIte]
          | null => exact absurd hx (by simp [hte])
          | bool b => exact absurd hx (by simp [hte])
          | str s => exact absurd hx (by simp [hte])
          | list l => exact absurd hx (by simp [hte])
          | obj o => exact absurd hx (by simp [hte])
    | null => exact absurd hx (by simp [wfAction])
    | bool b => exact absurd hx (by simp [wfAction])
    | num n => exact absurd hx (by simp [wfAction])
    | str s => exact absurd hx (by simp [wfAction])
    | list l => exact absurd hx (by simp [wfAction])

/-- The `whispers` comprehension of the cleanup evaluates, on well-formed
entries, to the pure filter by `whisperKept`. -/
theorem filterPy_whisperFilter (cutoff : Int) (xs : List Val) (st : DBState)
    (h : xs.all wfWhisper = true) :
    filterPy (whisperFilter cutoff) xs st = (.ok (xs.filter (whisperKept cutoff)), st) := by
  induction xs with
  | nil => rfl
  | cons x rest ih =>
    simp only [List.all_cons, Bool.and_eq_true] at h
    have hx := h.1
    have hrest := ih h.2
    cases x with
    | obj kvs =>
      rcases halg : alGet kvs "closed_at" with _ | e
      · simp only [filterPy, whisperFilter, bind_def, pure_def, dbmBind_apply,
          dbmPure_apply, pyDictGetOpt, halg, hrest, List.filter_cons, whisperKept, if_true]
      · rw [wfWhisper, wfOptTime, halg] at hx
        cases hte : pyTruthy e with
        | false =>
          simp only [filterPy, whisperFilter, bind_def, pure_def, dbmBind_apply,
            dbmPure_apply, pyDictGetOpt, halg, hrest, List.filter_cons, whisperKept, hte,
            Bool.false_eq_true, if_false, if_true, reduceIte]
        | true =>
          cases e with
          | num t =>
            simp only [filterPy, whisperFilter, bind_def, pure_def, dbmBind_apply,
              dbmPure_apply, pyDictGetOpt, fromiso, halg, hrest, List.filter_cons,
              whisperKept, hte, if_true, reduceIte]
          | null => exact absurd hx (by simp [hte])
          | bool b => exact absurd hx (by simp [hte])
          | str s => exact absurd hx (by simp [hte])
          | list l => exact absurd hx (by simp [hte])
          | obj o => exact absurd hx (by simp [hte])
    | null => exact absurd hx (by simp [wfWhisper])
    | bool b => exact absurd hx (by simp [wfWhisper])
    | num n => exact absurd hx (by simp [wfWhisper])
    | str s => exact absurd hx (by simp [wfWhisper])
    | list l => exact absurd hx (by simp [wfWhisper])

@[simp] theorem guildKey_str (s : String) : guildKey (.str s) = "guild:" ++ s := rfl

/-- Unpack a well-formed section: any present value is a list of
well-formed entries. -/
theorem wfSection_shape {kvs : List (String × Val)} {name : String} {P : Val → Bool}
    (h : (match alGet kvs name with
          | none => true
          | some (.list xs) => xs.all P
          | some _ => false) = true) :
    ∀ v, alGet kvs name = some v → ∃ xs, v = .list xs ∧ xs.all P = true := by
  intro v hv
  rw [hv] at h
  cases v with
  | list xs => exact ⟨xs, rfl, h⟩
  | null => exact absurd h (by simp)
  | bool b => exact absurd h (by simp)
  | num n => exact absurd h (by simp)
  | str s => exact absurd h (by simp)
  | obj o => exact absurd h (by simp)

/-- One conditional section rewrite of the cleanup evaluates, on a dict
document whose section (when present) is a list on which the filter
computes the pure kept-predicate, to the pure section rewrite, without
touching the state. -/
theorem cleanSection_run (name : String) (F : Val → DBM Bool) (K : Val → Bool)
    (kvs : List (String × Val)) (st : DBState)
    (hflt : ∀ xs, alGet kvs name = some (.list xs) →
      filterPy F xs st = (.ok (xs.filter K), st))
    (hshape : ∀ v, alGet kvs name = some v → ∃ xs, v = .list xs) :
    cleanSection name F (.obj kvs) st
      = (.ok (.obj (cleanSectionPure name K kvs)), st) := by
  rcases halg : alGet kvs name with _ | v
  · simp only [cleanSection, bind_def, pure_def, dbmBind_apply, dbmPure_apply, pyIn,
      halg, Option.isSome_none, Bool.false_eq_true, if_false, reduceIte, cleanSectionPure]
  · obtain ⟨xs, rfl⟩ := hshape v halg
    have hf := hflt xs halg
    simp only [cleanSection, bind_def, pure_def, dbmBind_apply, dbmPure_apply, pyIn,
      halg, Option.isSome_some, if_true, reduceIte, pyGetIndex, pyIter, hf, pySetIndex,
      cleanSectionPure]

/-- Full run of the per-guild body of `cleanup_old_data` on a well-formed
document: the three sections are filtered and the document persisted. -/
theorem cleanupGuild_run (cutoff now : Int) (gs : String) (st : DBState)
    (kvs : List (String × Val))
    (hUp : st.storeUp = true)
    (hcd : alGet st.cache ("guild:" ++ gs) = none)
    (hsd : alGet st.store ("guild:" ++ gs) = some (.obj kvs))
    (hwf : wfDoc kvs = true) :
    cleanupGuild cutoff now (.str gs) st
      = (.ok (), { st with store := alSet st.store ("guild:" ++ gs) (.obj (cleanedDoc cutoff now kvs)), cache := alSet (alSet st.cache ("guild:" ++ gs) (.obj kvs)) ("guild:" ++ gs) (serialVal (.obj (cleanedDoc cutoff now kvs))), writes := st.writes ++ [("guild:" ++ gs, .obj (cleanedDoc cutoff now kvs))] }) := by
  rw [wfDoc] at hwf
  have h12 := (Bool.and_eq_true _ _) ▸ hwf
  have h1 := (Bool.and_eq_true _ _) ▸ h12.1
  have hwl := h1.1
  have hwa := h1.2
  have hww := h12.2
  have hread := readData_cold hcd hUp hsd
  have h1 := cleanSection_run "logs" (logFilter cutoff) (logKept cutoff) kvs
    { st with cache := alSet st.cache ("guild:" ++ gs) (.obj kvs) }
    (fun xs hxs => by
      obtain ⟨xs', hx', hall⟩ := wfSection_shape hwl _ hxs
      cases hx'
      exact filterPy_logFilter cutoff xs _ hall)
    (fun v hv => by
      obtain ⟨xs, hx, _⟩ := wfSection_shape hwl v hv
      exact ⟨xs, hx⟩)
  have hwa1 : (match alGet (cleanSectionPure "logs" (logKept cutoff) kvs) "mod_actions" with
      | none => true
      | some (.list xs) => xs.all wfAction
      | some _ => false) = true := by
    rw [alGet_cleanSectionPure_ne _ _ _ (by decide)]
    exact hwa
  have h2 := cleanSection_run "mod_actions" (modActionFilter now) (actionKept now)
    (cleanSectionPure "logs" (logKept cutoff) kvs)
    { st with cache := alSet st.cache ("guild:" ++ gs) (.obj kvs) }
    (fun xs hxs => by
      obtain ⟨xs', hx', hall⟩ := wfSection_shape hwa1 _ hxs
      cases hx'
      exact filterPy_modActionFilter now xs _ hall)
    (fun v hv => by
      obtain ⟨xs, hx, _⟩ := wfSection_shape hwa1 v hv
      exact ⟨xs, hx⟩)
  have hww2 : (match alGet (cleanSectionPure "mod_actions" (actionKept now)
        (cleanSectionPure "logs" (logKept cutoff) kvs)) "whispers" with
      | none => true
      | some (.list xs) => xs.all wfWhisper
      | some _ => false) = true := by
    rw [alGet_cleanSectionPure_ne _ _ _ (by decide),
      alGet_cleanSectionPure_ne _ _ _ (by decide)]
    exact hww
  have h3 := cleanSection_run "whispers" (whisperFilter cutoff) (whisperKept cutoff)
    (cleanSectionPure "mod_actions" (actionKept now)
      (cleanSectionPure "logs" (logKept cutoff) kvs))
    { st with cache := alSet st.cache ("guild:" ++ gs) (.obj kvs) }
    (fun xs hxs => by
      obtain ⟨xs', hx', hall⟩ := wfSection_shape hww2 _ hxs
      cases hx'
      exact filterPy_whisperFilter cutoff xs _ hall)
    (fun v hv => by
      obtain ⟨xs, hx, _⟩ := wfSection_shape hww2 v hv
      exact ⟨xs, hx⟩)
  simp only [cleanupGuild, get_guild_data, bind_def, pure_def, dbmBind_apply,
    dbmPure_apply, guildKey_str, hread, pyOrDefault_obj]
  rw [h1]
  dsimp only
  rw [h2]
  dsimp only
  rw [h3]
  simp only [dbmBind_apply, dbmPure_apply, writeData, hUp, if_true, guildKey_str,
    cleanedDoc, reduceIte]

/-- Full characterization of the per-guild loop of `cleanup_old_data` over
pairwise-distinct guild ids with cold cache and well-formed documents. -/
theorem cleanupLoop_spec (cutoff now : Int) (gids : List String) :
    ∀ (st : DBState),
      st.storeUp = true →
      (∀ g ∈ gids, alGet st.cache ("guild:" ++ g) = none) →
      gids.Nodup →
      (∀ g ∈ gids, ∃ kvs, alGet st.store ("guild:" ++ g) = some (.obj kvs) ∧ wfDoc kvs = true) →
      (cleanupLoop cutoff now (gids.map Val.str) st).1 = .ok () ∧
      (cleanupLoop cutoff now (gids.map Val.str) st).2.storeUp = st.storeUp ∧
      (∀ g ∈ gids, ∀ kvs, alGet st.store ("guild:" ++ g) = some (.obj kvs) →
        alGet (cleanupLoop cutoff now (gids.map Val.str) st).2.store ("guild:" ++ g)
          = some (.obj (cleanedDoc cutoff now kvs))) ∧
      (∀ k, (∀ g ∈ gids, k ≠ "guild:" ++ g) →
        alGet (cleanupLoop cutoff now (gids.map Val.str) st).2.store k = alGet st.store k) ∧
      (∀ k, (∀ g ∈ gids, k ≠ "guild:" ++ g) →
        alGet (cleanupLoop cutoff now (gids.map Val.str) st).2.cache k = alGet st.cache k) := by
  induction gids with
  | nil =>
    intro st hUp hCold hNd hDocs
    exact ⟨rfl, rfl, fun g hg => absurd hg (List.not_mem_nil g), fun k _ => rfl, fun k _ => rfl⟩
  | cons g gs ih =>
    intro st hUp hCold hNd hDocs
    simp only [List.nodup_cons] at hNd
    have hKeyNe : ∀ g' ∈ gs, ("guild:" ++ g' : String) ≠ "guild:" ++ g := by
      intro g' hg' hkeq
      exact hNd.1 (guildKey_str_inj hkeq ▸ hg')
    obtain ⟨kvs0, hsd0, hwf0⟩ := hDocs g (List.mem_cons_self _ _)
    have hstep := cleanupGuild_run cutoff now g st kvs0 hUp
      (hCold g (List.mem_cons_self _ _)) hsd0 hwf0
    have hloop : cleanupLoop cutoff now ((g :: gs).map Val.str) st
        = cleanupLoop cutoff now (gs.map Val.str)
            { st with store := alSet st.store ("guild:" ++ g) (.obj (cleanedDoc cutoff now kvs0)), cache := alSet (alSet st.cache ("guild:" ++ g) (.obj kvs0)) ("guild:" ++ g) (serialVal (.obj (cleanedDoc cutoff now kvs0))), writes := st.writes ++ [("guild:" ++ g, .obj (cleanedDoc cutoff now kvs0))] } := by
      simp only [List.map_cons, cleanupLoop, bind_def, pure_def, dbmBind_apply,
        dbmPure_apply, hstep]
    have IH := ih
      { st with store := alSet st.store ("guild:" ++ g) (.obj (cleanedDoc cutoff now kvs0)), cache := alSet (alSet st.cache ("guild:" ++ g) (.obj kvs0)) ("guild:" ++ g) (serialVal (.obj (cleanedDoc cutoff now kvs0))), writes := st.writes ++ [("guild:" ++ g, .obj (cleanedDoc cutoff now kvs0))] }
      hUp
      (fun g' hg' => by
        dsimp only
        rw [alGet_alSet_ne _ _ (hKeyNe g' hg'), alGet_alSet_ne _ _ (hKeyNe g' hg')]
        exact hCold g' (List.mem_cons_of_mem _ hg'))
      hNd.2
      (fun g' hg' => by
        obtain ⟨kvs', hsd', hwf'⟩ := hDocs g' (List.mem_cons_of_mem _ hg')
        refine ⟨kvs', ?_, hwf'⟩
        dsimp only
        rw [alGet_alSet_ne _ _ (hKeyNe g' hg')]
        exact hsd')
    obtain ⟨iA, iB, iC, iD, iE⟩ := IH
    rw [hloop]
    refine ⟨iA, iB, ?_, ?_, ?_⟩
    · intro g' hg' kvs hkvs
      rcases List.mem_cons.mp hg' with heq | hg''
      · subst heq
        rw [hsd0] at hkvs
        obtain rfl : kvs0 = kvs := by
          injection hkvs with h'
          injection h'
        rw [iD ("guild:" ++ g') (fun q hq => Ne.symm (hKeyNe q hq))]
        dsimp only
        exact alGet_alSet_self _ _ _
      · refine iC g' hg'' kvs ?_
        dsimp only
        rw [alGet_alSet_ne _ _ (hKeyNe g' hg'')]
        exact hkvs
    · intro k hk
      rw [iD k (fun q hq => hk q (List.mem_cons_of_mem _ hq))]
      dsimp only
      exact alGet_alSet_ne _ _ (hk g (List.mem_cons_self _ _))
    · intro k hk
      rw [iE k (fun q hq => hk q (List.mem_cons_of_mem _ hq))]
      dsimp only
      rw [alGet_alSet_ne _ _ (hk g (List.mem_cons_self _ _))]
      exact alGet_alSet_ne _ _ (hk g (List.mem_cons_self _ _))

/-- A pure section rewrite filters the section it names. -/
theorem alGet_cleanSectionPure_self (name : String) (K : Val → Bool)
    (kvs : List (String × Val)) (xs : List Val)
    (h : alGet kvs name = some (.list xs)) :
    alGet (cleanSectionPure name K kvs) name = some (.list (xs.filter K)) := by
  unfold cleanSectionPure
  rw [h]
  exact alGet_alSet_self _ _ _

/-- The cleaned document keeps exactly the logs entries newer than the
cutoff. -/
theorem cleanedDoc_logs (c n : Int) (kvs : List (String × Val)) (xs : List Val)
    (h : alGet kvs "logs" = some (.list xs)) :
    alGet (cleanedDoc c n kvs) "logs" = some (.list (xs.filter (logKept c))) := by
  unfold cleanedDoc
  rw [alGet_cleanSectionPure_ne _ _ _ (by decide), alGet_cleanSectionPure_ne _ _ _ (by decide)]
  exact alGet_cleanSectionPure_self _ _ _ _ h

/-- The cleaned document keeps exactly the mod_actions entries whose
expiry is absent, falsy, or not yet passed. -/
theorem cleanedDoc_mod_actions (c n : Int) (kvs : List (String × Val)) (xs : List Val)
    (h : alGet kvs "mod_actions" = some (.list xs)) :
    alGet (cleanedDoc c n kvs) "mod_actions" = some (.list (xs.filter (actionKept n))) := by
  unfold cleanedDoc
  rw [alGet_cleanSectionPure_ne _ _ _ (by decide)]
  refine alGet_cleanSectionPure_self _ _ _ _ ?_
  rw [alGet_cleanSectionPure_ne _ _ _ (by decide)]
  exact h

/-- The cleaned document keeps exactly the whispers entries whose close
timestamp is absent, falsy, or newer than the cutoff. -/
theorem cleanedDoc_whispers (c n : Int) (kvs : List (String × Val)) (xs : List Val)
    (h : alGet kvs "whispers" = some (.list xs)) :
    alGet (cleanedDoc c n kvs) "whispers" = some (.list (xs.filter (whisperKept c))) := by
  unfold cleanedDoc
  refine alGet_cleanSectionPure_self _ _ _ _ ?_
  rw [alGet_cleanSectionPure_ne _ _ _ (by decide), alGet_cleanSectionPure_ne _ _ _ (by decide)]
  exact h

/-- The cleaned document leaves every other section unchanged. -/
theorem cleanedDoc_other (c n : Int) (kvs : List (String × Val)) (sec : String)
    (h1 : sec ≠ "logs") (h2 : sec ≠ "mod_actions") (h3 : sec ≠ "whispers") :
    alGet (cleanedDoc c n kvs) sec = alGet kvs sec := by
  unfold cleanedDoc
  rw [alGet_cleanSectionPure_ne _ _ _ h3, alGet_cleanSectionPure_ne _ _ _ h2,
    alGet_cleanSectionPure_ne _ _ _ h1]

/-- C6: for every guild in the GuildIndex, `cleanup_old_data(days)` keeps
exactly the logs entries newer than `now - days`, the mod_actions entries
whose expiry is absent, falsy, or not yet passed, and the whispers entries
whose close timestamp is absent, falsy, or not before the cutoff; entries
lacking the expiry/close timestamp are retained unconditionally; every
other section is untouched and the filtered document is persisted per
guild. -/
theorem C6_cleanup_old_data_filters (days : Int) (gids : List String) (st : DBState)
    (hUp : st.storeUp = true)
    (hcg : alGet st.cache "guilds" = none)
    (hsg : alGet st.store "guilds" = some (.list (gids.map Val.str)))
    (hcold : ∀ g ∈ gids, alGet st.cache ("guild:" ++ g) = none)
    (hnd : gids.Nodup)
    (hdocs : ∀ g ∈ gids, ∃ kvs,
      alGet st.store ("guild:" ++ g) = some (.obj kvs) ∧ wfDoc kvs = true) :
    (cleanup_old_data days st).1 = .ok true ∧
    (∀ g ∈ gids, ∀ kvs, alGet st.store ("guild:" ++ g) = some (.obj kvs) →
      alGet (cleanup_old_data days st).2.store ("guild:" ++ g)
        = some (.obj (cleanedDoc (st.now - days) st.now kvs))) ∧
    (∀ kvs xs, alGet kvs "logs" = some (.list xs) →
      alGet (cleanedDoc (st.now - days) st.now kvs) "logs"
        = some (.list (xs.filter (logKept (st.now - days))))) ∧
    (∀ kvs xs, alGet kvs "mod_actions" = some (.list xs) →
      alGet (cleanedDoc (st.now - days) st.now kvs) "mod_actions"
        = some (.list (xs.filter (actionKept st.now)))) ∧
    (∀ kvs xs, alGet kvs "whispers" = some (.list xs) →
      alGet (cleanedDoc (st.now - days) st.now kvs) "whispers"
        = some (.list (xs.filter (whisperKept (st.now - days))))) ∧
    (∀ kvs sec, sec ≠ "logs" → sec ≠ "mod_actions" → sec ≠ "whispers" →
      alGet (cleanedDoc (st.now - days) st.now kvs) sec = alGet kvs sec) ∧
    (∀ kvsA, alGet kvsA "expires" = none → actionKept st.now (.obj kvsA) = true) ∧
    (∀ kvsW, alGet kvsW "closed_at" = none →
      whisperKept (st.now - days) (.obj kvsW) = true) := by
  have hreadg := readData_cold hcg hUp hsg
  obtain ⟨lA, lB, lC, lD, lE⟩ := cleanupLoop_spec (st.now - days) st.now gids
    { st with cache := alSet st.cache "guilds" (.list (gids.map Val.str)) }
    hUp
    (fun g hg => by
      dsimp only
      rw [alGet_alSet_ne _ _ (guildKey_str_ne_guilds g)]
      exact hcold g hg)
    hnd
    (fun g hg => hdocs g hg)
  have hpair : cleanupLoop (st.now - days) st.now (gids.map Val.str)
      { st with cache := alSet st.cache "guilds" (.list (gids.map Val.str)) }
      = (.ok (), (cleanupLoop (st.now - days) st.now (gids.map Val.str)
          { st with cache := alSet st.cache "guilds" (.list (gids.map Val.str)) }).2) :=
    Prod.ext_iff.mpr ⟨lA, rfl⟩
  have hrun : cleanup_old_data days st
      = (.ok true, (cleanupLoop (st.now - days) st.now (gids.map Val.str)
          { st with cache := alSet st.cache "guilds" (.list (gids.map Val.str)) }).2) := by
    simp only [cleanup_old_data, runCatch_apply, bind_def, pure_def, dbmBind_apply,
      dbmPure_apply, getSt_apply, hreadg, pyOrDefault_list, pyIter]
    rw [hpair]
  refine ⟨by rw [hrun], ?_, ?_, ?_, ?_, ?_, ?_, ?_⟩
  · intro g hg kvs hkvs
    rw [hrun]
    exact lC g hg kvs hkvs
  · intro kvs xs h
    exact cleanedDoc_logs _ _ kvs xs h
  · intro kvs xs h
    exact cleanedDoc_mod_actions _ _ kvs xs h
  · intro kvs xs h
    exact cleanedDoc_whispers _ _ kvs xs h
  · intro kvs sec h1 h2 h3
    exact cleanedDoc_other _ _ kvs sec h1 h2 h3
  · intro kvsA h
    simp [actionKept, h]
  · intro kvsW h
    simp [whisperKept, h]

/-- Concrete state for the C6 witness: one guild whose logs hold a
40-day-old and a 1-day-old entry (times in days, now = 100), an expired
and a timestampless mod action, and a long-closed whisper. -/
def stC6 : DBState :=
  { cache := [],
    store := [("guilds", .list [.str "1"]),
      ("guild:1", .obj
        [("id", .str "1"),
         ("logs", .list [.obj [("m", .str "old"), ("timestamp", .num 60)],
                         .obj [("m", .str "new"), ("timestamp", .num 99)]]),
         ("mod_actions", .list [.obj [("a", .str "keep")],
                                .obj [("a", .str "drop"), ("expires", .num 50)]]),
         ("whispers", .list [.obj [("w", .str "t"), ("closed_at", .num 10)]]),
         ("roles", .obj [])])],
    storeUp := true, now := 100, nextLock := 0, locks := [], writes := [] }

/-- Witness for C6 with days = 30: only the 1-day-old log entry survives,
the timestampless action is retained, the expired action and the closed
whisper are dropped, and `roles` is untouched. -/
theorem C6_cleanup_old_data_filters_w :
    (cleanup_old_data 30 stC6).1 = .ok true ∧
    alGet (cleanup_old_data 30 stC6).2.store "guild:1"
      = some (.obj (cleanedDoc (stC6.now - 30) stC6.now
          [("id", .str "1"),
           ("logs", .list [.obj [("m", .str "old"), ("timestamp", .num 60)],
                           .obj [("m", .str "new"), ("timestamp", .num 99)]]),
           ("mod_actions", .list [.obj [("a", .str "keep")],
                                  .obj [("a", .str "drop"), ("expires", .num 50)]]),
           ("whispers", .list [.obj [("w", .str "t"), ("closed_at", .num 10)]]),
           ("roles", .obj [])])) ∧
    alGet (cleanedDoc (stC6.now - 30) stC6.now
          [("id", .str "1"),
           ("logs", .list [.obj [("m", .str "old"), ("timestamp", .num 60)],
                           .obj [("m", .str "new"), ("timestamp", .num 99)]]),
           ("mod_actions", .list [.obj [("a", .str "keep")],
                                  .obj [("a", .str "drop"), ("expires", .num 50)]]),
           ("whispers", .list [.obj [("w", .str "t"), ("closed_at", .num 10)]]),
           ("roles", .obj [])]) "logs"
      = some (.list [.obj [("m", .str "new"), ("timestamp", .num 99)]]) := by
  have h := C6_cleanup_old_data_filters 30 ["1"] stC6 rfl rfl rfl
    (by intro g hg; fin_cases hg <;> rfl) (by decide)
    (by
      intro g hg
      fin_cases hg
      exact ⟨[("id", .str "1"),
        ("logs", .list [.obj [("m", .str "old"), ("timestamp", .num 60)],
                        .obj [("m", .str "new"), ("timestamp", .num 99)]]),
        ("mod_actions", .list [.obj [("a", .str "keep")],
                               .obj [("a", .str "drop"), ("expires", .num 50)]]),
        ("whispers", .list [.obj [("w", .str "t"), ("closed_at", .num 10)]]),
        ("roles", .obj [])], rfl, rfl⟩)
  refine ⟨h.1, h.2.1 "1" (by simp) _ rfl, ?_⟩
  have h3 := h.2.2.1
    [("id", .str "1"),
     ("logs", .list [.obj [("m", .str "old"), ("timestamp", .num 60)],
                     .obj [("m", .str "new"), ("timestamp", .num 99)]]),
     ("mod_actions", .list [.obj [("a", .str "keep")],
                            .obj [("a", .str "drop"), ("expires", .num 50)]]),
     ("whispers", .list [.obj [("w", .str "t"), ("closed_at", .num 10)]]),
     ("roles", .obj [])]
    [.obj [("m", .str "old"), ("timestamp", .num 60)],
     .obj [("m", .str "new"), ("timestamp", .num 99)]] rfl
  rw [h3]
  rfl

/-- Concrete cached state for the C10 witness. -/
def stC10 : DBState :=
  { cache := [("guild:2", .obj [("xp_users", .obj [("a", .num 1)])])],
    store := [], storeUp := true, now := 0, nextLock := 0, locks := [], writes := [] }

/-- Witness for C10 at concrete inputs: a never-seen guild and a guild
whose `xp_users` lacks the queried user. -/
theorem C10_get_user_xp_absent_is_none_w :
    (get_user_xp (.num 1) "u" ⟨[], [], true, 0, 0, [], []⟩).1 = .ok none ∧
    (get_section (.num 1) "xp_users" ⟨[], [], true, 0, 0, [], []⟩).1 = .ok (.obj []) ∧
    (get_guild_data (.num 1) ⟨[], [], true, 0, 0, [], []⟩).1 = .ok (.obj []) ∧
    (get_user_xp (.num 2) "b" stC10).1 = .ok none := by
  have hA := C10_get_user_xp_absent_is_none.1 1 "u" ⟨[], [], true, 0, 0, [], []⟩ rfl rfl
  have hB := C10_get_user_xp_absent_is_none.2 2 "b" stC10
    [("xp_users", .obj [("a", .num 1)])] [("a", .num 1)] rfl rfl rfl
  exact ⟨hA.1, hA.2.1, hA.2.2, hB⟩

end OnWhisper
